import Mathlib

/-!
# Verification of `job_etl.py`

A shallow embedding of the ETL pipeline in `src/job_etl.py` (CPython 3.11
semantics), together with proofs and refutations of the specified properties.

Modelling conventions:
* Python `str` values are modelled as `List Char`, restricted to ASCII
  (Unicode-only behaviours of `str.isdigit`, `str.lower`, `str.strip` and the
  `\d`/`\s` regex classes are outside the model).
* A Python exception that escapes a function is modelled as `Except.error ()`.
  In this program the only such exception reachable from the modelled code is
  the `ValueError`/`OverflowError` raised by `datetime.utcfromtimestamp` when
  the resulting year exceeds 9999 (the `except ValueError` clauses in
  `parse_datetime` only wrap `strptime`).
* Machine local time (used by `datetime.timestamp()` on naive datetimes and by
  `datetime.utcnow()`) is fixed to UTC, so `datetime.utcnow().timestamp()` is
  the current Unix time, passed to the model as the parameter `now`.
* Fractional seconds (including fractional UTC offsets) never appear: every
  parsed or produced datetime in this program has whole seconds.
-/

/-- The characters of a string literal. -/
def chars (s : String) : List Char := s.data

/-- ASCII decimal digit test (the `\d` class of CPython's `_strptime` regexes,
and `str.isdigit`, restricted to ASCII). -/
def isDigitC (c : Char) : Bool := decide (48 ≤ c.toNat ∧ c.toNat ≤ 57)

/-- Numeric value of an ASCII digit character. -/
def digitVal (c : Char) : Nat := c.toNat - 48

/-- Python `value.isdigit()` (ASCII): nonempty and all characters are digits. -/
def allDigits (v : List Char) : Bool := !v.isEmpty && v.all isDigitC

/-- Python whitespace: the ASCII part of the default `str.strip` set and of the
regex `\s` class. -/
def isSpaceC (c : Char) : Bool :=
  c == ' ' || c == '\t' || c == '\n' || c == '\r' || c == '\x0b' || c == '\x0c'

/-- Python `str.lower` on ASCII letters. -/
def toLowerC (c : Char) : Char :=
  if 65 ≤ c.toNat ∧ c.toNat ≤ 90 then Char.ofNat (c.toNat + 32) else c

def lowerStr (v : List Char) : List Char := v.map toLowerC

/-- Python `str.strip()`: remove leading and trailing whitespace. -/
def pyStrip (v : List Char) : List Char :=
  ((v.dropWhile isSpaceC).reverse.dropWhile isSpaceC).reverse

/-- `startsWithL needle hay`: `needle` is an initial run of `hay`. -/
def startsWithL : List Char → List Char → Bool
  | [], _ => true
  | _ :: _, [] => false
  | a :: as, b :: bs => a == b && startsWithL as bs

/-- Python substring test `needle in hay`. -/
def containsSub (hay needle : List Char) : Bool :=
  match hay with
  | [] => needle.isEmpty
  | _ :: t => startsWithL needle hay || containsSub t needle

/-- Decimal value of a digit run (Python `int` on a digit string). -/
def natOfDigits (v : List Char) : Nat := v.foldl (fun acc c => 10 * acc + digitVal c) 0

def digitChar : Nat → Char
  | 0 => '0' | 1 => '1' | 2 => '2' | 3 => '3' | 4 => '4'
  | 5 => '5' | 6 => '6' | 7 => '7' | 8 => '8' | _ => '9'

/-- Two-digit zero-padded decimal rendering (for `n ≤ 99`). -/
def pad2 (n : Nat) : List Char := [digitChar (n / 10), digitChar (n % 10)]

/-- Four-digit zero-padded decimal rendering (for `n ≤ 9999`). -/
def pad4 (n : Nat) : List Char :=
  [digitChar (n / 1000), digitChar (n / 100 % 10), digitChar (n / 10 % 10), digitChar (n % 10)]

/-! ## Proleptic Gregorian calendar

`civilFromDays`/`daysFromCivil` convert between days-since-1970-01-01 and
calendar dates (Howard Hinnant's `civil_from_days`/`days_from_civil`
algorithms, which agree with CPython's `datetime` conversions). -/

/-- Year-of-era from day-of-era in a 400-year Gregorian era. -/
def yoeOf (doe : Nat) : Nat :=
  (doe - doe / 1460 + doe / 36524 - doe / 146096) / 365

/-- First day-of-era of a (March-based) year-of-era. -/
def yearStart (y : Nat) : Nat :=
  365 * y + y / 4 - y / 100

/-- Last day-of-era of a (March-based) year-of-era. -/
def yearEnd (y : Nat) : Nat :=
  if y = 399 then 146096 else yearStart (y + 1) - 1

def yoeBoundaryOK (y : Nat) : Bool :=
  yoeOf (yearStart y) == y && yoeOf (yearEnd y) == y

/-- Fuelled balanced scan: `allRangeF f fuel i n` checks `f` on `[i, i+n)`
(provided `2^fuel ≥ n`; with insufficient fuel it conservatively fails). -/
def allRangeF (f : Nat → Bool) : Nat → Nat → Nat → Bool
  | 0, _, n => n == 0
  | fuel + 1, i, n =>
    if n = 0 then true
    else if n = 1 then f i
    else allRangeF f fuel i (n / 2) && allRangeF f fuel (i + n / 2) (n - n / 2)

/-- Days since 1970-01-01 to calendar date `(year, month, day)`. -/
def civilFromDays (days : Nat) : Nat × Nat × Nat :=
  let z := days + 719468
  let era := z / 146097
  let doe := z % 146097
  let yoe := yoeOf doe
  let y := yoe + era * 400
  let doy := doe - yearStart yoe
  let mp := (5 * doy + 2) / 153
  let d := doy - (153 * mp + 2) / 5 + 1
  let m := if mp < 10 then mp + 3 else mp - 9
  (if m ≤ 2 then y + 1 else y, m, d)

/-- Calendar date to days since 1970-01-01 (for `y ≥ 1`). -/
def daysFromCivil (y m d : Nat) : Int :=
  let y' := if m ≤ 2 then y - 1 else y
  let era := y' / 400
  let yoe := y' % 400
  let mp := if m > 2 then m - 3 else m + 9
  let doy := (153 * mp + 2) / 5 + d - 1
  let doe := yoe * 365 + yoe / 4 - yoe / 100 + doy
  (era * 146097 + doe : Int) - 719468

/-! ## Python `datetime` values -/

/-- A second-precision `datetime.datetime`: naive when `tzOffset = none`,
aware with a UTC offset in seconds otherwise. -/
structure PyDateTime where
  year : Nat
  month : Nat
  day : Nat
  hour : Nat
  minute : Nat
  second : Nat
  tzOffset : Option Int
deriving DecidableEq

def isLeap (y : Nat) : Bool := y % 4 == 0 && (y % 100 != 0 || y % 400 == 0)

def daysInMonth (y m : Nat) : Nat :=
  if m = 2 then (if isLeap y then 29 else 28)
  else if m = 4 ∨ m = 6 ∨ m = 9 ∨ m = 11 then 30
  else 31

/-- `datetime.timezone` accepts only offsets strictly between ±24 hours. -/
def offOKb : Option Int → Bool
  | none => true
  | some o => decide (-86400 < o ∧ o < 86400)

/-- The range checks of the `datetime.datetime` (and `timezone`) constructors. -/
def dtOKb (y m d h mi s : Nat) (off : Option Int) : Bool :=
  decide (1 ≤ y ∧ y ≤ 9999 ∧ 1 ≤ m ∧ m ≤ 12 ∧ 1 ≤ d ∧ d ≤ daysInMonth y m ∧
    h ≤ 23 ∧ mi ≤ 59 ∧ s ≤ 59) && offOKb off

/-- Construct a `datetime.datetime`; `none` models the constructor's
`ValueError` on out-of-range components. -/
def mkDateTime (y m d h mi s : Nat) (off : Option Int) : Option PyDateTime :=
  if dtOKb y m d h mi s off then some ⟨y, m, d, h, mi, s, off⟩ else none

/-- `datetime.utcfromtimestamp(n)` for a nonnegative whole number of seconds;
`none` models the `ValueError` raised when the year exceeds 9999. -/
def utcfromtimestamp (n : Nat) : Option PyDateTime :=
  match civilFromDays (n / 86400) with
  | (y, m, d) => mkDateTime y m d (n % 86400 / 3600) (n % 86400 % 3600 / 60) (n % 86400 % 60) none

/-- Seconds since the epoch of the naive reading of a datetime's components. -/
def naiveEpochSecs (dt : PyDateTime) : Int :=
  daysFromCivil dt.year dt.month dt.day * 86400 +
    (dt.hour * 3600 + dt.minute * 60 + dt.second : Nat)

/-- `datetime.timestamp()`: aware datetimes subtract their UTC offset; naive
datetimes are interpreted in machine local time, fixed to UTC in this model. -/
def pyTimestamp (dt : PyDateTime) : Int :=
  naiveEpochSecs dt - (dt.tzOffset.getD 0)

/-- `date.isoformat()`: `YYYY-MM-DD`. -/
def isoDate (dt : PyDateTime) : List Char :=
  pad4 dt.year ++ '-' :: pad2 dt.month ++ '-' :: pad2 dt.day

/-- `timedelta` offset rendering inside `datetime.isoformat()`:
`±HH:MM`, with `:SS` appended when the offset has a seconds part. -/
def offRender (o : Int) : List Char :=
  (if o < 0 then '-' else '+') ::
    pad2 (o.natAbs / 3600) ++ ':' :: pad2 (o.natAbs % 3600 / 60) ++
      (if o.natAbs % 60 = 0 then [] else ':' :: pad2 (o.natAbs % 60))

/-- `datetime.isoformat()` for second-precision datetimes. -/
def isoDateTime (dt : PyDateTime) : List Char :=
  isoDate dt ++ 'T' :: pad2 dt.hour ++ ':' :: pad2 dt.minute ++ ':' :: pad2 dt.second ++
    (match dt.tzOffset with
     | none => []
     | some o => offRender o)

/-! ## `strptime` for the three formats of `parse_datetime`

The parsers transcribe the CPython 3.11 `_strptime` regexes for
`"%Y-%m-%dT%H:%M:%S%z"`, `"%a, %d %b %Y %H:%M:%S %z"` and `"%Y-%m-%d"`.
In these formats every numeric field is followed by a non-digit literal, the
offset sign, or the end of input, so each field can be matched by taking the
maximal digit run and checking the regex's length/value sets; the whole match
must consume the input. -/

/-- `%Y`: exactly four digits. -/
def parseRunLen4 (s : List Char) : Option (Nat × List Char) :=
  let run := s.takeWhile isDigitC
  if run.length = 4 then some (natOfDigits run, s.dropWhile isDigitC) else none

/-- A one-or-two-digit numeric field: one digit with value in `[lo, 9]`, or two
digits with value in `[lo, max2]` (the regexes for `%m %d %H %M %S`). -/
def parseField (lo max2 : Nat) (s : List Char) : Option (Nat × List Char) :=
  let run := s.takeWhile isDigitC
  let v := natOfDigits run
  if (run.length = 1 ∧ lo ≤ v) ∨ (run.length = 2 ∧ lo ≤ v ∧ v ≤ max2) then
    some (v, s.dropWhile isDigitC)
  else none

/-- `%d` also admits a space followed by a single digit `1..9`. -/
def parseDay (s : List Char) : Option (Nat × List Char) :=
  match s with
  | a :: c :: rest =>
    if a = ' ' then
      if isDigitC c ∧ 1 ≤ digitVal c then some (digitVal c, rest) else none
    else parseField 1 31 (a :: c :: rest)
  | _ => parseField 1 31 s

def expectChar (c : Char) : List Char → Option (List Char)
  | [] => none
  | a :: rest => if a = c then some rest else none

/-- The literal `T` of the format, matched case-insensitively
(`_strptime` compiles its format regex with `re.IGNORECASE`). -/
def expectT : List Char → Option (List Char)
  | [] => none
  | a :: rest => if a = 'T' ∨ a = 't' then some rest else none

/-- Whitespace in a format becomes `\s+`: one or more whitespace characters. -/
def munchWs1 : List Char → Option (List Char)
  | [] => none
  | a :: rest => if isSpaceC a then some (rest.dropWhile isSpaceC) else none

def twoDigits : List Char → Option (Nat × List Char)
  | a :: b :: rest =>
    if isDigitC a && isDigitC b then some (10 * digitVal a + digitVal b, rest) else none
  | _ => none

def skipColon : List Char → List Char
  | [] => []
  | c :: rest => if c = ':' then rest else c :: rest

/-- The optional seconds of an offset: `(:?[0-5]\d)?` followed by end of input
(fractional offset seconds never occur in this program). -/
def parseOffTail : List Char → Option Nat
  | [] => some 0
  | rest =>
    match twoDigits (skipColon rest) with
    | some (ss, []) => if ss ≤ 59 then some ss else none
    | _ => none

/-- `%z` at the end of the input: `[+-]\d\d:?[0-5]\d(:?[0-5]\d)?` or a
case-sensitive `Z`. -/
def parseOffEnd (s : List Char) : Option Int :=
  match s with
  | [] => none
  | c :: rest =>
    if c = 'Z' ∧ rest = [] then some 0
    else if c = '+' ∨ c = '-' then
      match twoDigits rest with
      | none => none
      | some (hh, r1) =>
        match twoDigits (skipColon r1) with
        | none => none
        | some (mm, r2) =>
          if mm ≤ 59 then
            match parseOffTail r2 with
            | none => none
            | some ss =>
              let mag : Int := (hh * 3600 + mm * 60 + ss : Nat)
              some (if c = '-' then -mag else mag)
          else none
    else none

/-- Index of a three-letter name in a name list (case-insensitive). -/
def lookupName (key : List Char) : List (List Char) → Option Nat
  | [] => none
  | n :: rest => if n == key then some 0 else (lookupName key rest).map (· + 1)

/-- Match one of the given three-letter names case-insensitively
(`%a` and `%b` match the locale's abbreviated names). -/
def matchName3 (names : List (List Char)) : List Char → Option (Nat × List Char)
  | a :: b :: c :: rest =>
    match lookupName [toLowerC a, toLowerC b, toLowerC c] names with
    | some i => some (i, rest)
    | none => none
  | _ => none

def weekdayNames : List (List Char) :=
  [chars "mon", chars "tue", chars "wed", chars "thu", chars "fri", chars "sat", chars "sun"]

def monthNames : List (List Char) :=
  [chars "jan", chars "feb", chars "mar", chars "apr", chars "may", chars "jun",
   chars "jul", chars "aug", chars "sep", chars "oct", chars "nov", chars "dec"]

/-- `strptime(value, "%Y-%m-%dT%H:%M:%S%z")`. -/
def parseISOz (s : List Char) : Option PyDateTime :=
  match parseRunLen4 s with
  | none => none
  | some (y, s1) =>
  match expectChar '-' s1 with
  | none => none
  | some s2 =>
  match parseField 1 12 s2 with
  | none => none
  | some (mo, s3) =>
  match expectChar '-' s3 with
  | none => none
  | some s4 =>
  match parseDay s4 with
  | none => none
  | some (d, s5) =>
  match expectT s5 with
  | none => none
  | some s6 =>
  match parseField 0 23 s6 with
  | none => none
  | some (h, s7) =>
  match expectChar ':' s7 with
  | none => none
  | some s8 =>
  match parseField 0 59 s8 with
  | none => none
  | some (mi, s9) =>
  match expectChar ':' s9 with
  | none => none
  | some s10 =>
  match parseField 0 61 s10 with
  | none => none
  | some (sec, s11) =>
  match parseOffEnd s11 with
  | none => none
  | some off => mkDateTime y mo d h mi sec (some off)

/-- `strptime(value, "%a, %d %b %Y %H:%M:%S %z")`; the weekday is matched but
not used (strptime does not check it against the date). -/
def parseRFC822 (s : List Char) : Option PyDateTime :=
  match matchName3 weekdayNames s with
  | none => none
  | some (_, s1) =>
  match expectChar ',' s1 with
  | none => none
  | some s2 =>
  match munchWs1 s2 with
  | none => none
  | some s3 =>
  match parseDay s3 with
  | none => none
  | some (d, s4) =>
  match munchWs1 s4 with
  | none => none
  | some s5 =>
  match matchName3 monthNames s5 with
  | none => none
  | some (mo0, s6) =>
  match munchWs1 s6 with
  | none => none
  | some s7 =>
  match parseRunLen4 s7 with
  | none => none
  | some (y, s8) =>
  match munchWs1 s8 with
  | none => none
  | some s9 =>
  match parseField 0 23 s9 with
  | none => none
  | some (h, s10) =>
  match expectChar ':' s10 with
  | none => none
  | some s11 =>
  match parseField 0 59 s11 with
  | none => none
  | some (mi, s12) =>
  match expectChar ':' s12 with
  | none => none
  | some s13 =>
  match parseField 0 61 s13 with
  | none => none
  | some (sec, s14) =>
  match munchWs1 s14 with
  | none => none
  | some s15 =>
  match parseOffEnd s15 with
  | none => none
  | some off => mkDateTime y (mo0 + 1) d h mi sec (some off)

/-- `strptime(value, "%Y-%m-%d")` (midnight, naive). -/
def parseDateFmt (s : List Char) : Option PyDateTime :=
  match parseRunLen4 s with
  | none => none
  | some (y, s1) =>
  match expectChar '-' s1 with
  | none => none
  | some s2 =>
  match parseField 1 12 s2 with
  | none => none
  | some (mo, s3) =>
  match expectChar '-' s3 with
  | none => none
  | some s4 =>
  match parseDay s4 with
  | none => none
  | some (d, s5) =>
  if s5 = [] then mkDateTime y mo d 0 0 0 none else none

/-- `parse_datetime` from `job_etl.py`. The `except ValueError` clauses wrap
only the `strptime` calls, so the error raised by `utcfromtimestamp` on an
out-of-range epoch value propagates (`Except.error ()`). -/
def parse_datetime (value : List Char) : Except Unit (Option PyDateTime) :=
  if value = [] then .ok none
  else if allDigits value then
    match utcfromtimestamp (natOfDigits value) with
    | some dt => .ok (some dt)
    | none => .error ()
  else
    .ok (match parseISOz value with
      | some dt => some dt
      | none =>
        match parseRFC822 value with
        | some dt => some dt
        | none => parseDateFmt value)

/-- `normalize_date` from `job_etl.py`. -/
def normalize_date (value : List Char) : Except Unit (List Char) :=
  match parse_datetime value with
  | .error e => .error e
  | .ok none => .ok []
  | .ok (some dt) =>
    if allDigits value || value.contains 'T' || value.contains ':' then .ok (isoDateTime dt)
    else .ok (isoDate dt)

/-! ## Well-formedness of produced date strings -/

/-- A well-formed ISO-8601 date string `YYYY-MM-DD`. -/
def isoDateShapeOK : List Char → Bool
  | [a, b, c, d, e, f, g, h, i, j] =>
    isDigitC a && isDigitC b && isDigitC c && isDigitC d && e == '-' &&
    isDigitC f && isDigitC g && h == '-' && isDigitC i && isDigitC j &&
    decide (1 ≤ 10 * digitVal f + digitVal g ∧ 10 * digitVal f + digitVal g ≤ 12) &&
    decide (1 ≤ 10 * digitVal i + digitVal j ∧ 10 * digitVal i + digitVal j ≤ 31)
  | _ => false

/-- A well-formed ISO-8601 naive date-time string `YYYY-MM-DDTHH:MM:SS`. -/
def isoDateTimeShapeOK (v : List Char) : Bool :=
  isoDateShapeOK (v.take 10) &&
  match v.drop 10 with
  | [t, i, j, c1, k, l, c2, m, n] =>
    t == 'T' &&
    isDigitC i && isDigitC j && c1 == ':' && isDigitC k && isDigitC l && c2 == ':' &&
    isDigitC m && isDigitC n &&
    decide (10 * digitVal i + digitVal j ≤ 23) &&
    decide (10 * digitVal k + digitVal l ≤ 59) &&
    decide (10 * digitVal m + digitVal n ≤ 59)
  | _ => false

/-! ## The pipeline -/

/-- The canonical record (`JobRecord` dataclass). -/
structure JobRecord where
  source : List Char
  source_id : List Char
  title : List Char
  company : List Char
  location : List Char
  url : List Char
  tags : List Char
  date_posted : List Char
  salary : List Char
  description : List Char
deriving DecidableEq

/-- One iteration of `transform`'s loop. -/
def transformRecord (r : JobRecord) : Except Unit JobRecord :=
  match normalize_date r.date_posted with
  | .error e => .error e
  | .ok nd =>
    .ok { source := r.source, source_id := r.source_id,
          title := pyStrip r.title, company := pyStrip r.company,
          location := pyStrip r.location, url := pyStrip r.url,
          tags := pyStrip r.tags, date_posted := nd,
          salary := pyStrip r.salary, description := pyStrip r.description }

/-- `transform` from `job_etl.py`. -/
def transform : List JobRecord → Except Unit (List JobRecord)
  | [] => .ok []
  | r :: rs =>
    match transformRecord r with
    | .error e => .error e
    | .ok r' =>
      match transform rs with
      | .error e => .error e
      | .ok rs' => .ok (r' :: rs')

/-- `title_matches` from `job_etl.py` (`lowered` holds the lowered titles). -/
def title_matches (title : List Char) (lowered : List (List Char)) : Bool :=
  lowered.any fun search => containsSub (lowerStr title) search

/-- The loop of `filter_jobs` (cutoff `now - 24*60*60`; the title check runs
before the date is parsed, so a title-rejected record never raises). -/
def filterGo (lowered : List (List Char)) (now : Int) :
    List JobRecord → Except Unit (List JobRecord)
  | [] => .ok []
  | r :: rs =>
    if lowered ≠ [] ∧ title_matches r.title lowered = false then filterGo lowered now rs
    else
      match parse_datetime r.date_posted with
      | .error e => .error e
      | .ok none => filterGo lowered now rs
      | .ok (some dt) =>
        if pyTimestamp dt < now - 86400 then filterGo lowered now rs
        else
          match filterGo lowered now rs with
          | .error e => .error e
          | .ok out => .ok (r :: out)

/-- `filter_jobs` from `job_etl.py`; `now = datetime.utcnow().timestamp()`. -/
def filter_jobs (records : List JobRecord) (titles : List (List Char)) (now : Int) :
    Except Unit (List JobRecord) :=
  filterGo (titles.map lowerStr) now records

/-- Whether a record passes the recency check of `filter_jobs`. -/
def recencyB (now : Int) (r : JobRecord) : Bool :=
  match parse_datetime r.date_posted with
  | .ok (some dt) => decide (now - 86400 ≤ pyTimestamp dt)
  | _ => false

/-- The full keep-predicate of `filter_jobs`. -/
def keepB (lowered : List (List Char)) (now : Int) (r : JobRecord) : Bool :=
  (lowered.isEmpty || title_matches r.title lowered) && recencyB now r

/-- The natural key `(source, source_id)`. -/
def rowKey (r : JobRecord) : List Char × List Char := (r.source, r.source_id)

/-- One `INSERT OR REPLACE INTO jobs` against the table (modelled as a row
list) whose `PRIMARY KEY` is `(source, source_id)`: the conflicting row, if
any, is deleted and the new row inserted. -/
def upsertRow (tbl : List JobRecord) (r : JobRecord) : List JobRecord :=
  tbl.filter (fun q => !(rowKey q == rowKey r)) ++ [r]

/-- `load_to_sqlite` from `job_etl.py`, as a function on the table state. -/
def load_to_sqlite (tbl : List JobRecord) (records : List JobRecord) : List JobRecord :=
  records.foldl upsertRow tbl

/-- The rows of a table holding a given natural key. -/
def rowsWithKey (tbl : List JobRecord) (k : List Char × List Char) : List JobRecord :=
  tbl.filter fun q => rowKey q == k

/-- No two rows of the table share a natural key. -/
def uniqKeys (tbl : List JobRecord) : Prop := (tbl.map rowKey).Nodup

/-- Observable events of a pipeline run. -/
inductive EtlEvent where
  | extractCall (name : List Char)
  | sinkWrite (fmt : List Char)
deriving DecidableEq

/-- Errors of a pipeline run: the two `ValueError`s raised by `run_etl` itself,
and a propagated exception from a stage. -/
inductive RunError where
  | unknownPortal (name : List Char)
  | unsupportedFormat (fmt : List Char)
  | valueError
deriving DecidableEq

/-- The keys of the `PORTALS` registry. -/
def knownPortals : List (List Char) :=
  [chars "remotive", chars "remoteok", chars "weworkremotely"]

def isKnown (name : List Char) : Bool := knownPortals.contains name

/-- The extraction loop of `run_etl`: walk the selected names in order,
invoking each known portal's `extract` (the oracle `extractOf` stands for the
network-backed extraction) and raising `ValueError` at the first unknown name. -/
def extractAll (extractOf : List Char → List JobRecord) :
    List (List Char) → List EtlEvent × Except RunError (List JobRecord)
  | [] => ([], .ok [])
  | n :: rest =>
    if isKnown n then
      match extractAll extractOf rest with
      | (evs, .ok more) => (.extractCall n :: evs, .ok (extractOf n ++ more))
      | (evs, .error e) => (.extractCall n :: evs, .error e)
    else ([], .error (.unknownPortal n))

/-- `run_etl` from `job_etl.py`: extract each selected source, transform,
filter, then dispatch on the output format; an unrecognised format raises
`ValueError` only after the earlier stages ran. Returns the event trace and
the reported count (the function's `return 0` together with the printed
`len(filtered)`). -/
def run_etl (extractOf : List Char → List JobRecord) (selected : List (List Char))
    (fmt : List Char) (titles : List (List Char)) (now : Int) :
    List EtlEvent × Except RunError Nat :=
  match extractAll extractOf selected with
  | (evs, .error e) => (evs, .error e)
  | (evs, .ok records) =>
    match transform records with
    | .error _ => (evs, .error .valueError)
    | .ok cleaned =>
      match filter_jobs cleaned titles now with
      | .error _ => (evs, .error .valueError)
      | .ok filtered =>
        if fmt = chars "csv" ∨ fmt = chars "jsonl" ∨ fmt = chars "sqlite" then
          (evs ++ [.sinkWrite fmt], .ok filtered.length)
        else (evs, .error (.unsupportedFormat fmt))

/-! ## Concrete fixtures used in witnesses and counterexamples -/

/-- A record whose raw `date_posted` is an epoch-seconds digit string
(`1700000000` = 2023-11-14T22:13:20 UTC). -/
def recDigitDate : JobRecord :=
  ⟨[], [], [], [], [], [], [], chars "1700000000", [], []⟩

/-- `recDigitDate` after one pass of `transform`. -/
def recDigitDateT : JobRecord :=
  ⟨[], [], [], [], [], [], [], chars "2023-11-14T22:13:20", [], []⟩

/-- `recDigitDate` after two passes of `transform`. -/
def recDigitDateT2 : JobRecord :=
  ⟨[], [], [], [], [], [], [], [], [], []⟩

/-- `utcfromtimestamp 1700000000`. -/
def dtEpoch : PyDateTime := ⟨2023, 11, 14, 22, 13, 20, none⟩

/-- A record with a plain `YYYY-MM-DD` date and a padded title. -/
def recIsoDate : JobRecord :=
  ⟨chars "remotive", chars "7", chars " Engineer ", [], [], [], [], chars "2024-06-01", [], []⟩

/-- `recIsoDate` after `transform`. -/
def recIsoDateT : JobRecord :=
  ⟨chars "remotive", chars "7", chars "Engineer", [], [], [], [], chars "2024-06-01", [], []⟩

/-- A record with an unparseable date. -/
def recBadDate : JobRecord :=
  ⟨[], [], [], [], [], [], [], chars "soon", [], []⟩

/-- A record dated at the epoch. -/
def recEpochDay : JobRecord :=
  ⟨[], [], [], [], [], [], [], chars "1970-01-01", [], []⟩

/-- The naive datetime parsed from `1970-01-01`. -/
def dt1970 : PyDateTime := ⟨1970, 1, 1, 0, 0, 0, none⟩

/-- A record whose `source` carries surrounding whitespace. -/
def recWsSource : JobRecord :=
  ⟨chars " a ", [], [], [], [], [], [], [], [], []⟩

/-- First version of a row under the natural key `("s", "1")`. -/
def recV1 : JobRecord :=
  ⟨chars "s", chars "1", chars "Old title", [], [], [], [], [], [], []⟩

/-- Second version of a row under the same natural key. -/
def recV2 : JobRecord :=
  ⟨chars "s", chars "1", chars "New title", [], [], [], [], [], [], []⟩

/-! ## Lemmas: digits and padded renderings -/

theorem digitChar_digit (k : Nat) : isDigitC (digitChar k) = true := by
  unfold digitChar
  split <;> rfl

theorem digitVal_digitChar (k : Nat) (h : k ≤ 9) : digitVal (digitChar k) = k := by
  interval_cases k <;> rfl

theorem digit_not_space (c : Char) (h : isDigitC c = true) : isSpaceC c = false := by
  simp only [isDigitC, decide_eq_true_eq] at h
  simp only [isSpaceC, Bool.or_eq_false_iff, beq_eq_false_iff_ne]
  refine ⟨⟨⟨⟨⟨?_, ?_⟩, ?_⟩, ?_⟩, ?_⟩, ?_⟩ <;>
    (intro he; subst he; revert h; decide)

theorem digitChar_ne (k : Nat) (c : Char) (hc : isDigitC c = false) : digitChar k ≠ c := by
  intro he
  rw [← he, digitChar_digit] at hc
  cases hc

theorem toLowerC_digit (c : Char) (h : isDigitC c = true) : toLowerC c = c := by
  simp only [isDigitC, decide_eq_true_eq] at h
  unfold toLowerC
  rw [if_neg]
  omega

theorem pad2_digits (n : Nat) : ∀ c ∈ pad2 n, isDigitC c = true := by
  intro c hc
  simp only [pad2, List.mem_cons, List.not_mem_nil, or_false] at hc
  rcases hc with h | h <;> (subst h; exact digitChar_digit _)

theorem pad4_digits (n : Nat) : ∀ c ∈ pad4 n, isDigitC c = true := by
  intro c hc
  simp only [pad4, List.mem_cons, List.not_mem_nil, or_false] at hc
  rcases hc with h | h | h | h <;> (subst h; exact digitChar_digit _)

theorem natOfDigits_pad2 (n : Nat) (h : n ≤ 99) : natOfDigits (pad2 n) = n := by
  simp only [pad2, natOfDigits, List.foldl_cons, List.foldl_nil]
  rw [digitVal_digitChar _ (by omega), digitVal_digitChar _ (by omega)]
  omega

theorem natOfDigits_pad4 (n : Nat) (h : n ≤ 9999) : natOfDigits (pad4 n) = n := by
  simp only [pad4, natOfDigits, List.foldl_cons, List.foldl_nil]
  rw [digitVal_digitChar _ (by omega), digitVal_digitChar _ (by omega),
    digitVal_digitChar _ (by omega), digitVal_digitChar _ (by omega)]
  omega

/-! ## Lemmas: takeWhile, dropWhile, strip -/

theorem takeWhile_app (p : Char → Bool) (l rest : List Char)
    (hl : ∀ c ∈ l, p c = true) (hr : ∀ c, rest.head? = some c → p c = false) :
    (l ++ rest).takeWhile p = l ∧ (l ++ rest).dropWhile p = rest := by
  induction l with
  | nil =>
    simp only [List.nil_append]
    cases rest with
    | nil => simp
    | cons c t =>
      have hc := hr c rfl
      simp [List.takeWhile_cons, List.dropWhile_cons, hc]
  | cons a l ih =>
    have ha : p a = true := hl a (by simp)
    have ih' := ih (fun c hc => hl c (by simp [hc]))
    simp [List.takeWhile_cons, List.dropWhile_cons, ha, ih'.1, ih'.2]

theorem dropWhile_ex_app (p : Char → Bool) (l : List Char) :
    ∃ t, t ++ l.dropWhile p = l := by
  induction l with
  | nil => exact ⟨[], rfl⟩
  | cons a l ih =>
    by_cases h : p a = true
    · obtain ⟨t, ht⟩ := ih
      exact ⟨a :: t, by simp [List.dropWhile_cons, h, ht]⟩
    · exact ⟨[], by simp [List.dropWhile_cons, h]⟩

theorem takeWhile_mem (p : Char → Bool) (l : List Char) :
    ∀ c ∈ l.takeWhile p, p c = true := by
  induction l with
  | nil => simp
  | cons a l ih =>
    intro c hc
    rw [List.takeWhile_cons] at hc
    by_cases h : p a = true
    · rw [if_pos h] at hc
      rcases List.mem_cons.mp hc with he | hm
      · subst he; exact h
      · exact ih c hm
    · rw [if_neg h] at hc
      simp at hc

theorem takeWhile_app_drop (p : Char → Bool) (l : List Char) :
    l.takeWhile p ++ l.dropWhile p = l := List.takeWhile_append_dropWhile p l

theorem dropWhile_head (p : Char → Bool) (l : List Char) (c : Char)
    (h : (l.dropWhile p).head? = some c) : p c = false := by
  induction l with
  | nil => simp [List.dropWhile] at h
  | cons a l ih =>
    by_cases ha : p a = true
    · rw [List.dropWhile_cons, if_pos ha] at h
      exact ih h
    · rw [List.dropWhile_cons, if_neg ha] at h
      simp only [List.head?_cons, Option.some.injEq] at h
      subst h
      simpa using ha

theorem dropWhile_eq_self_of_head (p : Char → Bool) (l : List Char)
    (h : ∀ c, l.head? = some c → p c = false) : l.dropWhile p = l := by
  cases l with
  | nil => rfl
  | cons a t => rw [List.dropWhile_cons, if_neg (by simp [h a rfl])]

theorem pyStrip_idem (v : List Char) : pyStrip (pyStrip v) = pyStrip v := by
  unfold pyStrip
  set p := isSpaceC
  set A := v.dropWhile p with hA
  set X := A.reverse.dropWhile p with hX
  -- the left-strip of the stripped value is the identity
  have hXsub : ∃ u, u ++ X = A.reverse := ⟨_, (takeWhile_app_drop p A.reverse)⟩
  have hpre : ∃ t, X.reverse ++ t = A := by
    obtain ⟨u, hu⟩ := hXsub
    refine ⟨u.reverse, ?_⟩
    have := congrArg List.reverse hu
    simpa [List.reverse_append] using this
  have hstep1 : X.reverse.dropWhile p = X.reverse := by
    apply dropWhile_eq_self_of_head
    intro c hc
    obtain ⟨t, ht⟩ := hpre
    have hhA : A.head? = some c := by
      cases hXr : X.reverse with
      | nil => rw [hXr] at hc; simp at hc
      | cons x xs =>
        rw [hXr] at hc ht
        simp only [List.head?_cons, Option.some.injEq] at hc
        subst hc
        rw [← ht]
        simp
    exact dropWhile_head p v c (by rw [← hA]; exact hhA)
  rw [hstep1, List.reverse_reverse]
  have hstep2 : A.reverse.dropWhile p = X := by rw [← hX]
  have hXidem : X.dropWhile p = X := by
    apply dropWhile_eq_self_of_head
    intro c hc
    exact dropWhile_head p A.reverse c (by rw [← hX]; exact hc)
  rw [hXidem]

theorem pyStrip_of_no_space (v : List Char) (h : ∀ c ∈ v, isSpaceC c = false) :
    pyStrip v = v := by
  unfold pyStrip
  have h1 : v.dropWhile isSpaceC = v := by
    apply dropWhile_eq_self_of_head
    intro c hc
    apply h
    cases v with
    | nil => simp at hc
    | cons a t =>
      simp only [List.head?_cons, Option.some.injEq] at hc
      subst hc
      simp
  rw [h1]
  have h2 : v.reverse.dropWhile isSpaceC = v.reverse := by
    apply dropWhile_eq_self_of_head
    intro c hc
    apply h
    have hm : c ∈ v.reverse := by
      cases hv : v.reverse with
      | nil => rw [hv] at hc; simp at hc
      | cons a t =>
        rw [hv] at hc
        simp only [List.head?_cons, Option.some.injEq] at hc
        subst hc
        simp
    simpa using hm
  rw [h2, List.reverse_reverse]

/-! ## Lemmas: the calendar conversions invert each other -/

theorem allRangeF_spec (f : Nat → Bool) :
    ∀ fuel i n, allRangeF f fuel i n = true → ∀ k, k < n → f (i + k) = true := by
  intro fuel
  induction fuel with
  | zero =>
    intro i n h k hk
    simp only [allRangeF, beq_iff_eq] at h
    omega
  | succ m ih =>
    intro i n h k hk
    simp only [allRangeF] at h
    by_cases h0 : n = 0
    · omega
    · by_cases h1 : n = 1
      · have : k = 0 := by omega
        subst this
        simp [h0, h1] at h
        simpa using h
      · simp only [h0, h1, if_false, Bool.and_eq_true] at h
        by_cases hk2 : k < n / 2
        · exact ih i (n / 2) h.1 k hk2
        · have := ih (i + n / 2) (n - n / 2) h.2 (k - n / 2) (by omega)
          have he : i + n / 2 + (k - n / 2) = i + k := by omega
          rwa [he] at this

set_option maxHeartbeats 1600000 in
theorem yoe_boundary_scan : allRangeF yoeBoundaryOK 16 0 400 = true := by rfl

theorem yoe_boundary (y : Nat) (h : y < 400) :
    yoeOf (yearStart y) = y ∧ yoeOf (yearEnd y) = y := by
  have := allRangeF_spec yoeBoundaryOK 16 0 400 yoe_boundary_scan y h
  simp only [Nat.zero_add] at this
  simp only [yoeBoundaryOK, Bool.and_eq_true, beq_iff_eq] at this
  exact this

set_option maxHeartbeats 1600000 in
theorem yoe_mono_step (doe : Nat) (h : doe < 146096) : yoeOf doe ≤ yoeOf (doe + 1) := by
  unfold yoeOf
  omega

theorem yoe_mono (a b : Nat) (hab : a ≤ b) (hb : b ≤ 146096) : yoeOf a ≤ yoeOf b := by
  induction b with
  | zero =>
    have : a = 0 := by omega
    rw [this]
  | succ n ih =>
    rcases Nat.eq_or_lt_of_le hab with he | hlt
    · rw [he]
    · exact Nat.le_trans (ih (by omega) (by omega)) (yoe_mono_step n (by omega))

/-- The windowing fact for Hinnant's year-of-era formula: the computed
year-of-era starts at or before the given day-of-era and within 365 days. -/
theorem yoe_window (doe : Nat) (h : doe < 146097) :
    yoeOf doe ≤ 399 ∧ yearStart (yoeOf doe) ≤ doe ∧ doe ≤ yearEnd (yoeOf doe) := by
  have hlast : yoeOf 146096 = 399 := by
    have := (yoe_boundary 399 (by omega)).2
    have he : yearEnd 399 = 146096 := by simp [yearEnd]
    rwa [he] at this
  have h399 : yoeOf doe ≤ 399 := by
    have := yoe_mono doe 146096 (by omega) (by omega)
    omega
  refine ⟨h399, ?_, ?_⟩
  · by_contra hc
    push_neg at hc
    set y := yoeOf doe with hy
    have hy1 : 1 ≤ y := by
      rcases Nat.eq_zero_or_pos y with h0 | h1
      · rw [h0] at hc; simp [yearStart] at hc
      · omega
    have hend : yearEnd (y - 1) = yearStart y - 1 := by
      have hne : y - 1 ≠ 399 := by omega
      have hsub : y - 1 + 1 = y := by omega
      simp only [yearEnd, hne, if_false, hsub]
    have hys : yearStart y ≤ 146096 := by
      unfold yearStart; omega
    have hle : doe ≤ yearEnd (y - 1) := by omega
    have hm := yoe_mono doe (yearEnd (y - 1)) hle (by omega)
    have hb := (yoe_boundary (y - 1) (by omega)).2
    omega
  · by_contra hc
    push_neg at hc
    set y := yoeOf doe with hy
    have hy398 : y ≤ 398 := by
      rcases Nat.eq_or_lt_of_le h399 with he | hlt
      · exfalso
        have : yearEnd y = 146096 := by simp [yearEnd, he]
        omega
      · omega
    have hstart : yearEnd y + 1 = yearStart (y + 1) := by
      have hne : y ≠ 399 := by omega
      simp only [yearEnd, hne, if_false]
      have : 365 ≤ yearStart (y + 1) := by
        unfold yearStart; omega
      omega
    have hle : yearStart (y + 1) ≤ doe := by omega
    have hm := yoe_mono (yearStart (y + 1)) doe hle (by omega)
    have hb := (yoe_boundary (y + 1) (by omega)).1
    omega

theorem yoe_window' (doe : Nat) (h : doe < 146097) :
    yoeOf doe ≤ 399 ∧ yearStart (yoeOf doe) ≤ doe ∧ doe ≤ yearStart (yoeOf doe) + 365 := by
  obtain ⟨h1, h2, h3⟩ := yoe_window doe h
  refine ⟨h1, h2, ?_⟩
  by_cases he : yoeOf doe = 399
  · rw [he] at h3 ⊢
    simp only [yearEnd, if_pos rfl] at h3
    simp only [yearStart]
    omega
  · simp only [yearEnd, he, if_false] at h3
    simp only [yearStart] at h3 ⊢
    omega

set_option maxHeartbeats 1600000 in
theorem roundtrip_core (era doe A mp doy : Nat)
    (h1 : A ≤ 399) (h2 : yearStart A ≤ doe) (h3 : doe ≤ yearStart A + 365)
    (hdoy : doy = doe - yearStart A)
    (hmp : mp = (5 * doy + 2) / 153) :
    daysFromCivil
        (if (if mp < 10 then mp + 3 else mp - 9) ≤ 2 then A + era * 400 + 1 else A + era * 400)
        (if mp < 10 then mp + 3 else mp - 9)
        (doy - (153 * mp + 2) / 5 + 1)
      = (era * 146097 : Int) + doe - 719468 := by
  simp only [daysFromCivil]
  simp only [yearStart] at h2 h3 hdoy
  split_ifs <;> omega

set_option maxHeartbeats 1600000 in
theorem civil_roundtrip (q : Nat) :
    daysFromCivil (civilFromDays q).1 (civilFromDays q).2.1 (civilFromDays q).2.2 = q := by
  obtain ⟨h1, h2, h3⟩ := yoe_window' ((q + 719468) % 146097) (by omega)
  simp only [civilFromDays]
  have hc := roundtrip_core ((q + 719468) / 146097) ((q + 719468) % 146097)
    (yoeOf ((q + 719468) % 146097))
    ((5 * ((q + 719468) % 146097 - yearStart (yoeOf ((q + 719468) % 146097))) + 2) / 153)
    ((q + 719468) % 146097 - yearStart (yoeOf ((q + 719468) % 146097)))
    h1 h2 h3 rfl rfl
  rw [hc]
  omega

theorem mkDateTime_some (y m d h mi s : Nat) (off : Option Int) (dt : PyDateTime)
    (hmk : mkDateTime y m d h mi s off = some dt) :
    dt = ⟨y, m, d, h, mi, s, off⟩ ∧ dtOKb y m d h mi s off = true := by
  unfold mkDateTime at hmk
  by_cases hok : dtOKb y m d h mi s off = true
  · rw [if_pos hok] at hmk
    cases hmk
    exact ⟨rfl, hok⟩
  · rw [if_neg hok] at hmk
    cases hmk

theorem mkDateTime_ok (y m d h mi s : Nat) (off : Option Int)
    (hok : dtOKb y m d h mi s off = true) :
    mkDateTime y m d h mi s off = some ⟨y, m, d, h, mi, s, off⟩ := by
  unfold mkDateTime
  rw [if_pos hok]

/-- Inverting `utcfromtimestamp`: a successful conversion is naive, passes the
constructor checks, and converting its components back to epoch seconds (the
`timestamp()` computation) recovers the input. -/
theorem utcfromtimestamp_some (n : Nat) (dt : PyDateTime)
    (h : utcfromtimestamp n = some dt) :
    dt.tzOffset = none ∧
    dtOKb dt.year dt.month dt.day dt.hour dt.minute dt.second dt.tzOffset = true ∧
    naiveEpochSecs dt = (n : Int) := by
  unfold utcfromtimestamp at h
  rcases hc : civilFromDays (n / 86400) with ⟨y, m, d⟩
  rw [hc] at h
  obtain ⟨hdt, hok⟩ := mkDateTime_some _ _ _ _ _ _ _ _ h
  subst hdt
  refine ⟨rfl, hok, ?_⟩
  have hr := civil_roundtrip (n / 86400)
  rw [hc] at hr
  simp only [naiveEpochSecs, hr]
  push_cast
  omega

/-! ## Lemmas: parser steps on rendered strings -/

theorem parseRunLen4_pad4 (y : Nat) (hy : y ≤ 9999) (rest : List Char)
    (hr : ∀ c, rest.head? = some c → isDigitC c = false) :
    parseRunLen4 (pad4 y ++ rest) = some (y, rest) := by
  obtain ⟨ht, hd⟩ := takeWhile_app isDigitC (pad4 y) rest (pad4_digits y) hr
  simp only [parseRunLen4]
  rw [ht, hd, if_pos (by simp [pad4]), natOfDigits_pad4 y hy]

theorem parseField_pad2 (lo max2 n : Nat) (h1 : lo ≤ n) (h2 : n ≤ max2) (h3 : n ≤ 99)
    (rest : List Char) (hr : ∀ c, rest.head? = some c → isDigitC c = false) :
    parseField lo max2 (pad2 n ++ rest) = some (n, rest) := by
  obtain ⟨ht, hd⟩ := takeWhile_app isDigitC (pad2 n) rest (pad2_digits n) hr
  simp only [parseField]
  rw [ht, hd, natOfDigits_pad2 n h3]
  rw [if_pos (Or.inr ⟨by simp [pad2], h1, h2⟩)]

theorem parseDay_pad2 (n : Nat) (h1 : 1 ≤ n) (h2 : n ≤ 31)
    (rest : List Char) (hr : ∀ c, rest.head? = some c → isDigitC c = false) :
    parseDay (pad2 n ++ rest) = some (n, rest) := by
  have hne : digitChar (n / 10) ≠ ' ' := digitChar_ne _ ' ' (by decide)
  have hres := parseField_pad2 1 31 n h1 h2 (by omega) rest hr
  simp only [pad2, List.cons_append] at hres ⊢
  simp only [parseDay]
  rw [if_neg hne]
  exact hres

theorem expectChar_cons (c : Char) (rest : List Char) :
    expectChar c (c :: rest) = some rest := by
  simp [expectChar]

theorem expectT_cons (rest : List Char) : expectT ('T' :: rest) = some rest := by
  simp [expectT]

theorem twoDigits_pad2 (n : Nat) (h : n ≤ 99) (rest : List Char) :
    twoDigits (pad2 n ++ rest) = some (n, rest) := by
  simp only [pad2, List.cons_append, List.nil_append, twoDigits]
  rw [if_pos (by rw [digitChar_digit, digitChar_digit]; rfl)]
  rw [digitVal_digitChar _ (by omega), digitVal_digitChar _ (by omega)]
  have : 10 * (n / 10) + n % 10 = n := by omega
  rw [this]

theorem skipColon_colon (rest : List Char) : skipColon (':' :: rest) = rest := by
  simp [skipColon]

theorem skipColon_digit (a : Char) (ha : isDigitC a = true) (rest : List Char) :
    skipColon (a :: rest) = a :: rest := by
  have : a ≠ ':' := by
    intro he
    rw [he] at ha
    cases ha
  simp [skipColon, this]

theorem parseOffEnd_offRender (o : Int) (hlo : -86400 < o) (hhi : o < 86400) :
    parseOffEnd (offRender o) = some o := by
  have hhh : o.natAbs / 3600 ≤ 99 := by omega
  have hmm59 : o.natAbs % 3600 / 60 ≤ 59 := by omega
  have hss59 : o.natAbs % 60 ≤ 59 := by omega
  unfold offRender
  set a := o.natAbs with ha
  set sgn := (if o < 0 then '-' else '+') with hsgn
  have hsign : ¬(sgn = 'Z' ∧ (pad2 (a / 3600) ++ ':' :: pad2 (a % 3600 / 60) ++
      (if a % 60 = 0 then ([] : List Char) else ':' :: pad2 (a % 60))) = []) := by
    intro hand
    rw [hsgn] at hand
    rcases hand with ⟨h1, _⟩
    revert h1
    split <;> simp
  set tail := (if a % 60 = 0 then ([] : List Char) else ':' :: pad2 (a % 60)) with htail
  have hpm : sgn = '+' ∨ sgn = '-' := by
    rw [hsgn]
    split
    · right; rfl
    · left; rfl
  have e1 : twoDigits (pad2 (a / 3600) ++ ':' :: (pad2 (a % 3600 / 60) ++ tail)) =
      some (a / 3600, ':' :: (pad2 (a % 3600 / 60) ++ tail)) := twoDigits_pad2 _ hhh _
  have e2 : skipColon (':' :: (pad2 (a % 3600 / 60) ++ tail)) =
      pad2 (a % 3600 / 60) ++ tail := skipColon_colon _
  have e3 : twoDigits (pad2 (a % 3600 / 60) ++ tail) = some (a % 3600 / 60, tail) :=
    twoDigits_pad2 _ (by omega) _
  have e4 : parseOffTail tail = some (a % 60) := by
    rw [htail]
    by_cases hz : a % 60 = 0
    · rw [if_pos hz, hz]
      rfl
    · rw [if_neg hz]
      have e5 : skipColon (':' :: pad2 (a % 60)) = pad2 (a % 60) := skipColon_colon _
      have e6 : twoDigits (pad2 (a % 60) ++ []) = some (a % 60, []) :=
        twoDigits_pad2 _ (by omega) []
      rw [List.append_nil] at e6
      simp only [parseOffTail, e5, e6]
      rw [if_pos hss59]
  show parseOffEnd (sgn :: (pad2 (a / 3600) ++ ':' :: pad2 (a % 3600 / 60) ++ tail)) = some o
  have hshape : (pad2 (a / 3600) ++ ':' :: pad2 (a % 3600 / 60) ++ tail) =
      pad2 (a / 3600) ++ ':' :: (pad2 (a % 3600 / 60) ++ tail) := by
    simp
  simp only [parseOffEnd, hshape, e1, e2, e3, e4]
  rw [if_neg (by rw [← hshape]; exact hsign)]
  rw [if_pos hpm, if_pos hmm59]
  have hmag : ((a / 3600 * 3600 + a % 3600 / 60 * 60 + a % 60 : Nat) : Int) = (a : Int) := by
    push_cast
    omega
  rw [hmag, hsgn]
  have haeq : (a : Int) = (o.natAbs : Int) := by rw [ha]
  by_cases hneg : o < 0
  · rw [if_pos hneg, if_pos rfl]
    congr 1
    omega
  · rw [if_neg hneg, if_neg (by decide)]
    congr 1
    omega

/-! ## Lemmas: the three formats on rendered strings -/

theorem head_dash (rest : List Char) :
    ∀ c, (('-' :: rest : List Char)).head? = some c → isDigitC c = false := by
  intro c hc
  simp only [List.head?_cons, Option.some.injEq] at hc
  subst hc
  rfl

theorem head_colon (rest : List Char) :
    ∀ c, ((':' :: rest : List Char)).head? = some c → isDigitC c = false := by
  intro c hc
  simp only [List.head?_cons, Option.some.injEq] at hc
  subst hc
  rfl

theorem head_T (rest : List Char) :
    ∀ c, (('T' :: rest : List Char)).head? = some c → isDigitC c = false := by
  intro c hc
  simp only [List.head?_cons, Option.some.injEq] at hc
  subst hc
  rfl

theorem head_nil :
    ∀ c, (([] : List Char)).head? = some c → isDigitC c = false := by
  intro c hc
  simp at hc

theorem head_offRender (o : Int) :
    ∀ c, (offRender o).head? = some c → isDigitC c = false := by
  intro c hc
  have he : (offRender o).head? = some (if o < 0 then '-' else '+') := by
    unfold offRender
    rfl
  rw [he, Option.some.injEq] at hc
  subst hc
  split <;> rfl

theorem daysInMonth_le_31 (y m : Nat) : daysInMonth y m ≤ 31 := by
  unfold daysInMonth
  split_ifs <;> omega

/-- `"%Y-%m-%dT%H:%M:%S%z"` parses the `isoformat` of an aware datetime back to
the same datetime. -/
theorem parseISOz_isoDateTime (dt : PyDateTime) (o : Int) (ho : dt.tzOffset = some o)
    (hv : dtOKb dt.year dt.month dt.day dt.hour dt.minute dt.second dt.tzOffset = true) :
    parseISOz (isoDateTime dt) = some dt := by
  have hv' := hv
  rw [ho] at hv'
  simp only [dtOKb, offOKb, Bool.and_eq_true, decide_eq_true_eq] at hv'
  obtain ⟨⟨hy1, hy2, hm1, hm2, hd1, hd2, hh, hmi, hs⟩, ho1, ho2⟩ := hv'
  have hd31 : dt.day ≤ 31 := Nat.le_trans hd2 (daysInMonth_le_31 _ _)
  have hshape : isoDateTime dt = pad4 dt.year ++ ('-' :: (pad2 dt.month ++ ('-' :: (pad2 dt.day ++ ('T' :: (pad2 dt.hour ++ (':' :: (pad2 dt.minute ++ (':' :: (pad2 dt.second ++ offRender o)))))))))) := by
    simp [isoDateTime, isoDate, ho, List.append_assoc]
  have e1 : parseRunLen4 (pad4 dt.year ++ ('-' :: (pad2 dt.month ++ ('-' :: (pad2 dt.day ++ ('T' :: (pad2 dt.hour ++ (':' :: (pad2 dt.minute ++ (':' :: (pad2 dt.second ++ offRender o))))))))))) = some (dt.year, ('-' :: (pad2 dt.month ++ ('-' :: (pad2 dt.day ++ ('T' :: (pad2 dt.hour ++ (':' :: (pad2 dt.minute ++ (':' :: (pad2 dt.second ++ offRender o))))))))))) :=
    parseRunLen4_pad4 dt.year hy2 ('-' :: (pad2 dt.month ++ ('-' :: (pad2 dt.day ++ ('T' :: (pad2 dt.hour ++ (':' :: (pad2 dt.minute ++ (':' :: (pad2 dt.second ++ offRender o)))))))))) (head_dash (pad2 dt.month ++ ('-' :: (pad2 dt.day ++ ('T' :: (pad2 dt.hour ++ (':' :: (pad2 dt.minute ++ (':' :: (pad2 dt.second ++ offRender o))))))))))
  have e2 : expectChar '-' ('-' :: (pad2 dt.month ++ ('-' :: (pad2 dt.day ++ ('T' :: (pad2 dt.hour ++ (':' :: (pad2 dt.minute ++ (':' :: (pad2 dt.second ++ offRender o)))))))))) = some (pad2 dt.month ++ ('-' :: (pad2 dt.day ++ ('T' :: (pad2 dt.hour ++ (':' :: (pad2 dt.minute ++ (':' :: (pad2 dt.second ++ offRender o))))))))) := expectChar_cons '-' (pad2 dt.month ++ ('-' :: (pad2 dt.day ++ ('T' :: (pad2 dt.hour ++ (':' :: (pad2 dt.minute ++ (':' :: (pad2 dt.second ++ offRender o)))))))))
  have e3 : parseField 1 12 (pad2 dt.month ++ ('-' :: (pad2 dt.day ++ ('T' :: (pad2 dt.hour ++ (':' :: (pad2 dt.minute ++ (':' :: (pad2 dt.second ++ offRender o))))))))) = some (dt.month, ('-' :: (pad2 dt.day ++ ('T' :: (pad2 dt.hour ++ (':' :: (pad2 dt.minute ++ (':' :: (pad2 dt.second ++ offRender o))))))))) :=
    parseField_pad2 1 12 dt.month hm1 hm2 (by omega) ('-' :: (pad2 dt.day ++ ('T' :: (pad2 dt.hour ++ (':' :: (pad2 dt.minute ++ (':' :: (pad2 dt.second ++ offRender o)))))))) (head_dash (pad2 dt.day ++ ('T' :: (pad2 dt.hour ++ (':' :: (pad2 dt.minute ++ (':' :: (pad2 dt.second ++ offRender o))))))))
  have e4 : expectChar '-' ('-' :: (pad2 dt.day ++ ('T' :: (pad2 dt.hour ++ (':' :: (pad2 dt.minute ++ (':' :: (pad2 dt.second ++ offRender o)))))))) = some (pad2 dt.day ++ ('T' :: (pad2 dt.hour ++ (':' :: (pad2 dt.minute ++ (':' :: (pad2 dt.second ++ offRender o))))))) := expectChar_cons '-' (pad2 dt.day ++ ('T' :: (pad2 dt.hour ++ (':' :: (pad2 dt.minute ++ (':' :: (pad2 dt.second ++ offRender o)))))))
  have e5 : parseDay (pad2 dt.day ++ ('T' :: (pad2 dt.hour ++ (':' :: (pad2 dt.minute ++ (':' :: (pad2 dt.second ++ offRender o))))))) = some (dt.day, ('T' :: (pad2 dt.hour ++ (':' :: (pad2 dt.minute ++ (':' :: (pad2 dt.second ++ offRender o))))))) :=
    parseDay_pad2 dt.day hd1 hd31 ('T' :: (pad2 dt.hour ++ (':' :: (pad2 dt.minute ++ (':' :: (pad2 dt.second ++ offRender o)))))) (head_T (pad2 dt.hour ++ (':' :: (pad2 dt.minute ++ (':' :: (pad2 dt.second ++ offRender o))))))
  have e6 : expectT ('T' :: (pad2 dt.hour ++ (':' :: (pad2 dt.minute ++ (':' :: (pad2 dt.second ++ offRender o)))))) = some (pad2 dt.hour ++ (':' :: (pad2 dt.minute ++ (':' :: (pad2 dt.second ++ offRender o))))) := expectT_cons (pad2 dt.hour ++ (':' :: (pad2 dt.minute ++ (':' :: (pad2 dt.second ++ offRender o)))))
  have e7 : parseField 0 23 (pad2 dt.hour ++ (':' :: (pad2 dt.minute ++ (':' :: (pad2 dt.second ++ offRender o))))) = some (dt.hour, (':' :: (pad2 dt.minute ++ (':' :: (pad2 dt.second ++ offRender o))))) :=
    parseField_pad2 0 23 dt.hour (by omega) hh (by omega) (':' :: (pad2 dt.minute ++ (':' :: (pad2 dt.second ++ offRender o)))) (head_colon (pad2 dt.minute ++ (':' :: (pad2 dt.second ++ offRender o))))
  have e8 : expectChar ':' (':' :: (pad2 dt.minute ++ (':' :: (pad2 dt.second ++ offRender o)))) = some (pad2 dt.minute ++ (':' :: (pad2 dt.second ++ offRender o))) := expectChar_cons ':' (pad2 dt.minute ++ (':' :: (pad2 dt.second ++ offRender o)))
  have e9 : parseField 0 59 (pad2 dt.minute ++ (':' :: (pad2 dt.second ++ offRender o))) = some (dt.minute, (':' :: (pad2 dt.second ++ offRender o))) :=
    parseField_pad2 0 59 dt.minute (by omega) hmi (by omega) (':' :: (pad2 dt.second ++ offRender o)) (head_colon (pad2 dt.second ++ offRender o))
  have e10 : expectChar ':' (':' :: (pad2 dt.second ++ offRender o)) = some (pad2 dt.second ++ offRender o) := expectChar_cons ':' (pad2 dt.second ++ offRender o)
  have e11 : parseField 0 61 (pad2 dt.second ++ offRender o) = some (dt.second, offRender o) :=
    parseField_pad2 0 61 dt.second (by omega) (by omega) (by omega) (offRender o)
      (head_offRender o)
  have e12 : parseOffEnd (offRender o) = some o := parseOffEnd_offRender o ho1 ho2
  have emk : mkDateTime dt.year dt.month dt.day dt.hour dt.minute dt.second (some o) =
      some dt := by
    rw [mkDateTime_ok _ _ _ _ _ _ _ (by rw [← ho]; exact hv)]
    congr 1
    rw [← ho]
  rw [hshape]
  simp only [parseISOz, e1, e2, e3, e4, e5, e6, e7, e8, e9, e10, e11, e12, emk]

/-- `"%Y-%m-%d"` parses a rendered plain date back to midnight of that date. -/
theorem parseDateFmt_isoDate (y m d : Nat)
    (hv : dtOKb y m d 0 0 0 none = true) :
    parseDateFmt (pad4 y ++ '-' :: (pad2 m ++ '-' :: pad2 d)) =
      some ⟨y, m, d, 0, 0, 0, none⟩ := by
  have hv' := hv
  simp only [dtOKb, offOKb, Bool.and_eq_true, decide_eq_true_eq] at hv'
  obtain ⟨⟨hy1, hy2, hm1, hm2, hd1, hd2, hh0, hmi0, hs0⟩, hoo⟩ := hv'
  have hd31 : d ≤ 31 := Nat.le_trans hd2 (daysInMonth_le_31 _ _)
  have e1 : parseRunLen4 (pad4 y ++ '-' :: (pad2 m ++ '-' :: pad2 d)) =
      some (y, '-' :: (pad2 m ++ '-' :: pad2 d)) :=
    parseRunLen4_pad4 y hy2 ('-' :: (pad2 m ++ '-' :: pad2 d)) (head_dash _)
  have e2 : expectChar '-' ('-' :: (pad2 m ++ '-' :: pad2 d)) =
      some (pad2 m ++ '-' :: pad2 d) := expectChar_cons '-' _
  have e3 : parseField 1 12 (pad2 m ++ '-' :: pad2 d) = some (m, '-' :: pad2 d) :=
    parseField_pad2 1 12 m hm1 hm2 (by omega) ('-' :: pad2 d) (head_dash _)
  have e4 : expectChar '-' ('-' :: pad2 d) = some (pad2 d) := expectChar_cons '-' _
  have e5 : parseDay (pad2 d) = some (d, []) := by
    have := parseDay_pad2 d hd1 hd31 [] head_nil
    rwa [List.append_nil] at this
  simp only [parseDateFmt, e1, e2, e3, e4, e5, if_pos rfl]
  exact mkDateTime_ok _ _ _ _ _ _ _ hv

/-- The ISO format rejects a rendered plain date (no time part follows). -/
theorem parseISOz_isoDate_none (y m d : Nat)
    (hv : dtOKb y m d 0 0 0 none = true) :
    parseISOz (pad4 y ++ '-' :: (pad2 m ++ '-' :: pad2 d)) = none := by
  have hv' := hv
  simp only [dtOKb, offOKb, Bool.and_eq_true, decide_eq_true_eq] at hv'
  obtain ⟨⟨hy1, hy2, hm1, hm2, hd1, hd2, hh0, hmi0, hs0⟩, hoo⟩ := hv'
  have hd31 : d ≤ 31 := Nat.le_trans hd2 (daysInMonth_le_31 _ _)
  have e1 : parseRunLen4 (pad4 y ++ '-' :: (pad2 m ++ '-' :: pad2 d)) =
      some (y, '-' :: (pad2 m ++ '-' :: pad2 d)) :=
    parseRunLen4_pad4 y hy2 ('-' :: (pad2 m ++ '-' :: pad2 d)) (head_dash _)
  have e2 : expectChar '-' ('-' :: (pad2 m ++ '-' :: pad2 d)) =
      some (pad2 m ++ '-' :: pad2 d) := expectChar_cons '-' _
  have e3 : parseField 1 12 (pad2 m ++ '-' :: pad2 d) = some (m, '-' :: pad2 d) :=
    parseField_pad2 1 12 m hm1 hm2 (by omega) ('-' :: pad2 d) (head_dash _)
  have e4 : expectChar '-' ('-' :: pad2 d) = some (pad2 d) := expectChar_cons '-' _
  have e5 : parseDay (pad2 d) = some (d, []) := by
    have := parseDay_pad2 d hd1 hd31 [] head_nil
    rwa [List.append_nil] at this
  have e6 : expectT [] = none := rfl
  simp only [parseISOz, e1, e2, e3, e4, e5, e6]

/-- The ISO format rejects the `isoformat` of a naive datetime: after the
seconds there is no offset, but `%z` demands one. -/
theorem parseISOz_isoDateTime_naive_none (dt : PyDateTime) (ho : dt.tzOffset = none)
    (hv : dtOKb dt.year dt.month dt.day dt.hour dt.minute dt.second dt.tzOffset = true) :
    parseISOz (isoDateTime dt) = none := by
  have hv' := hv
  simp only [dtOKb, offOKb, Bool.and_eq_true, decide_eq_true_eq] at hv'
  obtain ⟨⟨hy1, hy2, hm1, hm2, hd1, hd2, hh, hmi, hs⟩, hoo⟩ := hv'
  have hd31 : dt.day ≤ 31 := Nat.le_trans hd2 (daysInMonth_le_31 _ _)
  have hshape : isoDateTime dt = pad4 dt.year ++ ('-' :: (pad2 dt.month ++ ('-' :: (pad2 dt.day ++ ('T' :: (pad2 dt.hour ++ (':' :: (pad2 dt.minute ++ (':' :: (pad2 dt.second ++ ([] : List Char))))))))))) := by
    simp [isoDateTime, isoDate, ho, List.append_assoc]
  have e1 : parseRunLen4 (pad4 dt.year ++ ('-' :: (pad2 dt.month ++ ('-' :: (pad2 dt.day ++ ('T' :: (pad2 dt.hour ++ (':' :: (pad2 dt.minute ++ (':' :: (pad2 dt.second ++ ([] : List Char)))))))))))) = some (dt.year, ('-' :: (pad2 dt.month ++ ('-' :: (pad2 dt.day ++ ('T' :: (pad2 dt.hour ++ (':' :: (pad2 dt.minute ++ (':' :: (pad2 dt.second ++ ([] : List Char)))))))))))) :=
    parseRunLen4_pad4 dt.year hy2 ('-' :: (pad2 dt.month ++ ('-' :: (pad2 dt.day ++ ('T' :: (pad2 dt.hour ++ (':' :: (pad2 dt.minute ++ (':' :: (pad2 dt.second ++ ([] : List Char))))))))))) (head_dash (pad2 dt.month ++ ('-' :: (pad2 dt.day ++ ('T' :: (pad2 dt.hour ++ (':' :: (pad2 dt.minute ++ (':' :: (pad2 dt.second ++ ([] : List Char)))))))))))
  have e2 : expectChar '-' ('-' :: (pad2 dt.month ++ ('-' :: (pad2 dt.day ++ ('T' :: (pad2 dt.hour ++ (':' :: (pad2 dt.minute ++ (':' :: (pad2 dt.second ++ ([] : List Char))))))))))) = some (pad2 dt.month ++ ('-' :: (pad2 dt.day ++ ('T' :: (pad2 dt.hour ++ (':' :: (pad2 dt.minute ++ (':' :: (pad2 dt.second ++ ([] : List Char)))))))))) := expectChar_cons '-' (pad2 dt.month ++ ('-' :: (pad2 dt.day ++ ('T' :: (pad2 dt.hour ++ (':' :: (pad2 dt.minute ++ (':' :: (pad2 dt.second ++ ([] : List Char))))))))))
  have e3 : parseField 1 12 (pad2 dt.month ++ ('-' :: (pad2 dt.day ++ ('T' :: (pad2 dt.hour ++ (':' :: (pad2 dt.minute ++ (':' :: (pad2 dt.second ++ ([] : List Char)))))))))) = some (dt.month, ('-' :: (pad2 dt.day ++ ('T' :: (pad2 dt.hour ++ (':' :: (pad2 dt.minute ++ (':' :: (pad2 dt.second ++ ([] : List Char)))))))))) :=
    parseField_pad2 1 12 dt.month hm1 hm2 (by omega) ('-' :: (pad2 dt.day ++ ('T' :: (pad2 dt.hour ++ (':' :: (pad2 dt.minute ++ (':' :: (pad2 dt.second ++ ([] : List Char))))))))) (head_dash (pad2 dt.day ++ ('T' :: (pad2 dt.hour ++ (':' :: (pad2 dt.minute ++ (':' :: (pad2 dt.second ++ ([] : List Char)))))))))
  have e4 : expectChar '-' ('-' :: (pad2 dt.day ++ ('T' :: (pad2 dt.hour ++ (':' :: (pad2 dt.minute ++ (':' :: (pad2 dt.second ++ ([] : List Char))))))))) = some (pad2 dt.day ++ ('T' :: (pad2 dt.hour ++ (':' :: (pad2 dt.minute ++ (':' :: (pad2 dt.second ++ ([] : List Char)))))))) := expectChar_cons '-' (pad2 dt.day ++ ('T' :: (pad2 dt.hour ++ (':' :: (pad2 dt.minute ++ (':' :: (pad2 dt.second ++ ([] : List Char))))))))
  have e5 : parseDay (pad2 dt.day ++ ('T' :: (pad2 dt.hour ++ (':' :: (pad2 dt.minute ++ (':' :: (pad2 dt.second ++ ([] : List Char)))))))) = some (dt.day, ('T' :: (pad2 dt.hour ++ (':' :: (pad2 dt.minute ++ (':' :: (pad2 dt.second ++ ([] : List Char)))))))) :=
    parseDay_pad2 dt.day hd1 hd31 ('T' :: (pad2 dt.hour ++ (':' :: (pad2 dt.minute ++ (':' :: (pad2 dt.second ++ ([] : List Char))))))) (head_T (pad2 dt.hour ++ (':' :: (pad2 dt.minute ++ (':' :: (pad2 dt.second ++ ([] : List Char)))))))
  have e6 : expectT ('T' :: (pad2 dt.hour ++ (':' :: (pad2 dt.minute ++ (':' :: (pad2 dt.second ++ ([] : List Char))))))) = some (pad2 dt.hour ++ (':' :: (pad2 dt.minute ++ (':' :: (pad2 dt.second ++ ([] : List Char)))))) := expectT_cons (pad2 dt.hour ++ (':' :: (pad2 dt.minute ++ (':' :: (pad2 dt.second ++ ([] : List Char))))))
  have e7 : parseField 0 23 (pad2 dt.hour ++ (':' :: (pad2 dt.minute ++ (':' :: (pad2 dt.second ++ ([] : List Char)))))) = some (dt.hour, (':' :: (pad2 dt.minute ++ (':' :: (pad2 dt.second ++ ([] : List Char)))))) :=
    parseField_pad2 0 23 dt.hour (by omega) hh (by omega) (':' :: (pad2 dt.minute ++ (':' :: (pad2 dt.second ++ ([] : List Char))))) (head_colon (pad2 dt.minute ++ (':' :: (pad2 dt.second ++ ([] : List Char)))))
  have e8 : expectChar ':' (':' :: (pad2 dt.minute ++ (':' :: (pad2 dt.second ++ ([] : List Char))))) = some (pad2 dt.minute ++ (':' :: (pad2 dt.second ++ ([] : List Char)))) := expectChar_cons ':' (pad2 dt.minute ++ (':' :: (pad2 dt.second ++ ([] : List Char))))
  have e9 : parseField 0 59 (pad2 dt.minute ++ (':' :: (pad2 dt.second ++ ([] : List Char)))) = some (dt.minute, (':' :: (pad2 dt.second ++ ([] : List Char)))) :=
    parseField_pad2 0 59 dt.minute (by omega) hmi (by omega) (':' :: (pad2 dt.second ++ ([] : List Char))) (head_colon (pad2 dt.second ++ ([] : List Char)))
  have e10 : expectChar ':' (':' :: (pad2 dt.second ++ ([] : List Char))) = some (pad2 dt.second ++ ([] : List Char)) := expectChar_cons ':' (pad2 dt.second ++ ([] : List Char))
  have e11 : parseField 0 61 (pad2 dt.second ++ ([] : List Char)) = some (dt.second, ([] : List Char)) :=
    parseField_pad2 0 61 dt.second (by omega) (by omega) (by omega) ([] : List Char) head_nil
  have e12 : parseOffEnd ([] : List Char) = none := rfl
  rw [hshape]
  simp only [parseISOz, e1, e2, e3, e4, e5, e6, e7, e8, e9, e10, e11, e12]

/-- The plain-date format rejects the `isoformat` of a naive datetime: input
remains after the day. -/
theorem parseDateFmt_isoDateTime_none (dt : PyDateTime) (ho : dt.tzOffset = none)
    (hv : dtOKb dt.year dt.month dt.day dt.hour dt.minute dt.second dt.tzOffset = true) :
    parseDateFmt (isoDateTime dt) = none := by
  have hv' := hv
  simp only [dtOKb, offOKb, Bool.and_eq_true, decide_eq_true_eq] at hv'
  obtain ⟨⟨hy1, hy2, hm1, hm2, hd1, hd2, hh, hmi, hs⟩, hoo⟩ := hv'
  have hd31 : dt.day ≤ 31 := Nat.le_trans hd2 (daysInMonth_le_31 _ _)
  have hshape : isoDateTime dt = pad4 dt.year ++ ('-' :: (pad2 dt.month ++ ('-' :: (pad2 dt.day ++ ('T' :: (pad2 dt.hour ++ (':' :: (pad2 dt.minute ++ (':' :: (pad2 dt.second ++ ([] : List Char))))))))))) := by
    simp [isoDateTime, isoDate, ho, List.append_assoc]
  have e1 : parseRunLen4 (pad4 dt.year ++ ('-' :: (pad2 dt.month ++ ('-' :: (pad2 dt.day ++ ('T' :: (pad2 dt.hour ++ (':' :: (pad2 dt.minute ++ (':' :: (pad2 dt.second ++ ([] : List Char)))))))))))) = some (dt.year, ('-' :: (pad2 dt.month ++ ('-' :: (pad2 dt.day ++ ('T' :: (pad2 dt.hour ++ (':' :: (pad2 dt.minute ++ (':' :: (pad2 dt.second ++ ([] : List Char)))))))))))) :=
    parseRunLen4_pad4 dt.year hy2 ('-' :: (pad2 dt.month ++ ('-' :: (pad2 dt.day ++ ('T' :: (pad2 dt.hour ++ (':' :: (pad2 dt.minute ++ (':' :: (pad2 dt.second ++ ([] : List Char))))))))))) (head_dash (pad2 dt.month ++ ('-' :: (pad2 dt.day ++ ('T' :: (pad2 dt.hour ++ (':' :: (pad2 dt.minute ++ (':' :: (pad2 dt.second ++ ([] : List Char)))))))))))
  have e2 : expectChar '-' ('-' :: (pad2 dt.month ++ ('-' :: (pad2 dt.day ++ ('T' :: (pad2 dt.hour ++ (':' :: (pad2 dt.minute ++ (':' :: (pad2 dt.second ++ ([] : List Char))))))))))) = some (pad2 dt.month ++ ('-' :: (pad2 dt.day ++ ('T' :: (pad2 dt.hour ++ (':' :: (pad2 dt.minute ++ (':' :: (pad2 dt.second ++ ([] : List Char)))))))))) := expectChar_cons '-' (pad2 dt.month ++ ('-' :: (pad2 dt.day ++ ('T' :: (pad2 dt.hour ++ (':' :: (pad2 dt.minute ++ (':' :: (pad2 dt.second ++ ([] : List Char))))))))))
  have e3 : parseField 1 12 (pad2 dt.month ++ ('-' :: (pad2 dt.day ++ ('T' :: (pad2 dt.hour ++ (':' :: (pad2 dt.minute ++ (':' :: (pad2 dt.second ++ ([] : List Char)))))))))) = some (dt.month, ('-' :: (pad2 dt.day ++ ('T' :: (pad2 dt.hour ++ (':' :: (pad2 dt.minute ++ (':' :: (pad2 dt.second ++ ([] : List Char)))))))))) :=
    parseField_pad2 1 12 dt.month hm1 hm2 (by omega) ('-' :: (pad2 dt.day ++ ('T' :: (pad2 dt.hour ++ (':' :: (pad2 dt.minute ++ (':' :: (pad2 dt.second ++ ([] : List Char))))))))) (head_dash (pad2 dt.day ++ ('T' :: (pad2 dt.hour ++ (':' :: (pad2 dt.minute ++ (':' :: (pad2 dt.second ++ ([] : List Char)))))))))
  have e4 : expectChar '-' ('-' :: (pad2 dt.day ++ ('T' :: (pad2 dt.hour ++ (':' :: (pad2 dt.minute ++ (':' :: (pad2 dt.second ++ ([] : List Char))))))))) = some (pad2 dt.day ++ ('T' :: (pad2 dt.hour ++ (':' :: (pad2 dt.minute ++ (':' :: (pad2 dt.second ++ ([] : List Char)))))))) := expectChar_cons '-' (pad2 dt.day ++ ('T' :: (pad2 dt.hour ++ (':' :: (pad2 dt.minute ++ (':' :: (pad2 dt.second ++ ([] : List Char))))))))
  have e5 : parseDay (pad2 dt.day ++ ('T' :: (pad2 dt.hour ++ (':' :: (pad2 dt.minute ++ (':' :: (pad2 dt.second ++ ([] : List Char)))))))) = some (dt.day, ('T' :: (pad2 dt.hour ++ (':' :: (pad2 dt.minute ++ (':' :: (pad2 dt.second ++ ([] : List Char)))))))) :=
    parseDay_pad2 dt.day hd1 hd31 ('T' :: (pad2 dt.hour ++ (':' :: (pad2 dt.minute ++ (':' :: (pad2 dt.second ++ ([] : List Char))))))) (head_T (pad2 dt.hour ++ (':' :: (pad2 dt.minute ++ (':' :: (pad2 dt.second ++ ([] : List Char)))))))
  rw [hshape]
  simp only [parseDateFmt, e1, e2, e3, e4, e5]
  rw [if_neg (by simp)]

/-! ## Lemmas: parser inversions -/

theorem sub_comp {a b c : List Char} (h1 : ∃ u, u ++ b = a) (h2 : ∃ u, u ++ c = b) :
    ∃ u, u ++ c = a := by
  obtain ⟨u1, e1⟩ := h1
  obtain ⟨u2, e2⟩ := h2
  exact ⟨u1 ++ u2, by rw [List.append_assoc, e2, e1]⟩

theorem mem_of_sub {c : Char} {t s : List Char} (h : ∃ u, u ++ t = s) (hm : c ∈ t) :
    c ∈ s := by
  obtain ⟨u, hu⟩ := h
  rw [← hu]
  exact List.mem_append_right u hm

theorem subP_comp (P : Char → Prop) {a b c : List Char}
    (h1 : ∃ u, u ++ b = a ∧ ∀ x ∈ u, P x) (h2 : ∃ u, u ++ c = b ∧ ∀ x ∈ u, P x) :
    ∃ u, u ++ c = a ∧ ∀ x ∈ u, P x := by
  obtain ⟨u1, e1, p1⟩ := h1
  obtain ⟨u2, e2, p2⟩ := h2
  refine ⟨u1 ++ u2, by rw [List.append_assoc, e2, e1], ?_⟩
  intro x hx
  rcases List.mem_append.mp hx with hx | hx
  · exact p1 x hx
  · exact p2 x hx

theorem parseRunLen4_inv (s : List Char) (y : Nat) (t : List Char)
    (h : parseRunLen4 s = some (y, t)) :
    ∃ u, u ++ t = s ∧ ∀ c ∈ u, isDigitC c = true := by
  simp only [parseRunLen4] at h
  split at h
  · simp only [Option.some.injEq, Prod.mk.injEq] at h
    obtain ⟨-, ht⟩ := h
    exact ⟨s.takeWhile isDigitC, by rw [← ht]; exact takeWhile_app_drop _ s, takeWhile_mem _ s⟩
  · cases h

theorem parseField_inv (lo max2 : Nat) (s : List Char) (n : Nat) (t : List Char)
    (h : parseField lo max2 s = some (n, t)) :
    ∃ u, u ++ t = s ∧ ∀ c ∈ u, isDigitC c = true := by
  simp only [parseField] at h
  split at h
  · simp only [Option.some.injEq, Prod.mk.injEq] at h
    obtain ⟨-, ht⟩ := h
    exact ⟨s.takeWhile isDigitC, by rw [← ht]; exact takeWhile_app_drop _ s, takeWhile_mem _ s⟩
  · cases h

theorem parseDay_inv (s : List Char) (n : Nat) (t : List Char)
    (h : parseDay s = some (n, t)) :
    ∃ u, u ++ t = s ∧ ∀ c ∈ u, isDigitC c = true ∨ c = ' ' := by
  have fromField : parseField 1 31 s = some (n, t) →
      ∃ u, u ++ t = s ∧ ∀ c ∈ u, isDigitC c = true ∨ c = ' ' := by
    intro hf
    obtain ⟨u, hu, hd⟩ := parseField_inv 1 31 s n t hf
    exact ⟨u, hu, fun c hc => Or.inl (hd c hc)⟩
  cases s with
  | nil => exact fromField h
  | cons a s1 =>
    cases s1 with
    | nil => exact fromField h
    | cons b rest =>
      simp only [parseDay] at h
      by_cases ha : a = ' '
      · rw [if_pos ha] at h
        split at h
        · rename_i hcond
          simp only [Option.some.injEq, Prod.mk.injEq] at h
          obtain ⟨-, ht⟩ := h
          refine ⟨[a, b], by simp [ht], ?_⟩
          intro c hc
          rcases List.mem_cons.mp hc with he | hc
          · subst he; exact Or.inr ha
          · rcases List.mem_cons.mp hc with he | hc
            · subst he
              exact Or.inl hcond.1
            · simp at hc
        · cases h
      · rw [if_neg ha] at h
        exact fromField h

theorem expectChar_inv (c : Char) (s t : List Char) (h : expectChar c s = some t) :
    s = c :: t := by
  cases s with
  | nil => simp [expectChar] at h
  | cons a rest =>
    simp only [expectChar] at h
    by_cases ha : a = c
    · rw [if_pos ha] at h
      cases h
      rw [ha]
    · rw [if_neg ha] at h
      cases h

theorem expectT_inv (s t : List Char) (h : expectT s = some t) :
    s = 'T' :: t ∨ s = 't' :: t := by
  cases s with
  | nil => simp [expectT] at h
  | cons a rest =>
    simp only [expectT] at h
    by_cases ha : a = 'T' ∨ a = 't'
    · rw [if_pos ha] at h
      cases h
      rcases ha with ha | ha
      · left; rw [ha]
      · right; rw [ha]
    · rw [if_neg ha] at h
      cases h

theorem munchWs1_inv (s t : List Char) (h : munchWs1 s = some t) :
    ∃ u, u ++ t = s := by
  cases s with
  | nil => simp [munchWs1] at h
  | cons a rest =>
    simp only [munchWs1] at h
    split at h
    · cases h
      obtain ⟨u2, hu⟩ := dropWhile_ex_app isSpaceC rest
      exact ⟨a :: u2, by rw [List.cons_append, hu]⟩
    · cases h

theorem matchName3_inv (names : List (List Char)) (s : List Char) (i : Nat) (t : List Char)
    (h : matchName3 names s = some (i, t)) :
    ∃ a b c, s = a :: b :: c :: t := by
  match s with
  | [] => simp [matchName3] at h
  | [a] => simp [matchName3] at h
  | [a, b] => simp [matchName3] at h
  | a :: b :: c :: rest =>
    simp only [matchName3] at h
    split at h
    · simp only [Option.some.injEq, Prod.mk.injEq] at h
      obtain ⟨-, ht⟩ := h
      exact ⟨a, b, c, by rw [ht]⟩
    · cases h

/-- Inverting the ISO parser: the result passed the constructor checks, is
aware, and the input contained a colon. -/
theorem parseISOz_some (v : List Char) (dt : PyDateTime) (h : parseISOz v = some dt) :
    dtOKb dt.year dt.month dt.day dt.hour dt.minute dt.second dt.tzOffset = true ∧
    (∃ o, dt.tzOffset = some o) ∧ ':' ∈ v := by
  unfold parseISOz at h
  cases h1 : parseRunLen4 v with
  | none => simp [h1] at h
  | some p0 =>
    obtain ⟨y, s1⟩ := p0
    simp only [h1] at h
    cases h2 : expectChar '-' s1 with
    | none => simp [h2] at h
    | some s2 =>
      simp only [h2] at h
      cases h3 : parseField 1 12 s2 with
      | none => simp [h3] at h
      | some p2 =>
        obtain ⟨mo, s3⟩ := p2
        simp only [h3] at h
        cases h4 : expectChar '-' s3 with
        | none => simp [h4] at h
        | some s4 =>
          simp only [h4] at h
          cases h5 : parseDay s4 with
          | none => simp [h5] at h
          | some p4 =>
            obtain ⟨d, s5⟩ := p4
            simp only [h5] at h
            cases h6 : expectT s5 with
            | none => simp [h6] at h
            | some s6 =>
              simp only [h6] at h
              cases h7 : parseField 0 23 s6 with
              | none => simp [h7] at h
              | some p6 =>
                obtain ⟨hh, s7⟩ := p6
                simp only [h7] at h
                cases h8 : expectChar ':' s7 with
                | none => simp [h8] at h
                | some s8 =>
                  simp only [h8] at h
                  cases h9 : parseField 0 59 s8 with
                  | none => simp [h9] at h
                  | some p8 =>
                    obtain ⟨mi, s9⟩ := p8
                    simp only [h9] at h
                    cases h10 : expectChar ':' s9 with
                    | none => simp [h10] at h
                    | some s10 =>
                      simp only [h10] at h
                      cases h11 : parseField 0 61 s10 with
                      | none => simp [h11] at h
                      | some p10 =>
                        obtain ⟨sec, s11⟩ := p10
                        simp only [h11] at h
                        cases h12 : parseOffEnd s11 with
                        | none => simp [h12] at h
                        | some off =>
                          simp only [h12] at h
                          have sub1 : ∃ u, u ++ s1 = v := by
                            obtain ⟨u, hu, -⟩ := parseRunLen4_inv v y s1 h1
                            exact ⟨u, hu⟩
                          have sub2 : ∃ u, u ++ s2 = v :=
                            sub_comp sub1 ⟨['-'], (expectChar_inv '-' s1 s2 h2).symm⟩
                          have sub3 : ∃ u, u ++ s3 = v := by
                            obtain ⟨u, hu, -⟩ := parseField_inv 1 12 s2 mo s3 h3
                            exact sub_comp sub2 ⟨u, hu⟩
                          have sub4 : ∃ u, u ++ s4 = v :=
                            sub_comp sub3 ⟨['-'], (expectChar_inv '-' s3 s4 h4).symm⟩
                          have sub5 : ∃ u, u ++ s5 = v := by
                            obtain ⟨u, hu, -⟩ := parseDay_inv s4 d s5 h5
                            exact sub_comp sub4 ⟨u, hu⟩
                          have sub6 : ∃ u, u ++ s6 = v := by
                            rcases expectT_inv s5 s6 h6 with he | he
                            · exact sub_comp sub5 ⟨['T'], he.symm⟩
                            · exact sub_comp sub5 ⟨['t'], he.symm⟩
                          have sub7 : ∃ u, u ++ s7 = v := by
                            obtain ⟨u, hu, -⟩ := parseField_inv 0 23 s6 hh s7 h7
                            exact sub_comp sub6 ⟨u, hu⟩
                          have hcolon : ':' ∈ v := by
                            refine mem_of_sub sub7 ?_
                            rw [expectChar_inv ':' s7 s8 h8]
                            simp
                          obtain ⟨hdt, hok⟩ := mkDateTime_some _ _ _ _ _ _ _ _ h
                          subst hdt
                          exact ⟨hok, ⟨off, rfl⟩, hcolon⟩

/-- Inverting the RFC-822 parser: the result passed the constructor checks, is
aware, and the input contained a colon. -/
theorem parseRFC822_some (v : List Char) (dt : PyDateTime) (h : parseRFC822 v = some dt) :
    dtOKb dt.year dt.month dt.day dt.hour dt.minute dt.second dt.tzOffset = true ∧
    (∃ o, dt.tzOffset = some o) ∧ ':' ∈ v := by
  unfold parseRFC822 at h
  cases h1 : matchName3 weekdayNames v with
  | none => simp [h1] at h
  | some p0 =>
    obtain ⟨w, s1⟩ := p0
    simp only [h1] at h
    cases h2 : expectChar ',' s1 with
    | none => simp [h2] at h
    | some s2 =>
      simp only [h2] at h
      cases h3 : munchWs1 s2 with
      | none => simp [h3] at h
      | some s3 =>
        simp only [h3] at h
        cases h4 : parseDay s3 with
        | none => simp [h4] at h
        | some p3 =>
          obtain ⟨d, s4⟩ := p3
          simp only [h4] at h
          cases h5 : munchWs1 s4 with
          | none => simp [h5] at h
          | some s5 =>
            simp only [h5] at h
            cases h6 : matchName3 monthNames s5 with
            | none => simp [h6] at h
            | some p5 =>
              obtain ⟨mo0, s6⟩ := p5
              simp only [h6] at h
              cases h7 : munchWs1 s6 with
              | none => simp [h7] at h
              | some s7 =>
                simp only [h7] at h
                cases h8 : parseRunLen4 s7 with
                | none => simp [h8] at h
                | some p7 =>
                  obtain ⟨y, s8⟩ := p7
                  simp only [h8] at h
                  cases h9 : munchWs1 s8 with
                  | none => simp [h9] at h
                  | some s9 =>
                    simp only [h9] at h
                    cases h10 : parseField 0 23 s9 with
                    | none => simp [h10] at h
                    | some p9 =>
                      obtain ⟨hh, s10⟩ := p9
                      simp only [h10] at h
                      cases h11 : expectChar ':' s10 with
                      | none => simp [h11] at h
                      | some s11 =>
                        simp only [h11] at h
                        cases h12 : parseField 0 59 s11 with
                        | none => simp [h12] at h
                        | some p11 =>
                          obtain ⟨mi, s12⟩ := p11
                          simp only [h12] at h
                          cases h13 : expectChar ':' s12 with
                          | none => simp [h13] at h
                          | some s13 =>
                            simp only [h13] at h
                            cases h14 : parseField 0 61 s13 with
                            | none => simp [h14] at h
                            | some p13 =>
                              obtain ⟨sec, s14⟩ := p13
                              simp only [h14] at h
                              cases h15 : munchWs1 s14 with
                              | none => simp [h15] at h
                              | some s15 =>
                                simp only [h15] at h
                                cases h16 : parseOffEnd s15 with
                                | none => simp [h16] at h
                                | some off =>
                                  simp only [h16] at h
                                  have sub1 : ∃ u, u ++ s1 = v := by
                                    obtain ⟨a, b, c, habc⟩ := matchName3_inv weekdayNames v w s1 h1
                                    exact ⟨[a, b, c], habc.symm⟩
                                  have sub2 : ∃ u, u ++ s2 = v :=
                                    sub_comp sub1 ⟨[','], (expectChar_inv ',' s1 s2 h2).symm⟩
                                  have sub3 : ∃ u, u ++ s3 = v := sub_comp sub2 (munchWs1_inv s2 s3 h3)
                                  have sub4 : ∃ u, u ++ s4 = v := by
                                    obtain ⟨u, hu, -⟩ := parseDay_inv s3 d s4 h4
                                    exact sub_comp sub3 ⟨u, hu⟩
                                  have sub5 : ∃ u, u ++ s5 = v := sub_comp sub4 (munchWs1_inv s4 s5 h5)
                                  have sub6 : ∃ u, u ++ s6 = v := by
                                    obtain ⟨a, b, c, habc⟩ := matchName3_inv monthNames s5 mo0 s6 h6
                                    exact sub_comp sub5 ⟨[a, b, c], habc.symm⟩
                                  have sub7 : ∃ u, u ++ s7 = v := sub_comp sub6 (munchWs1_inv s6 s7 h7)
                                  have sub8 : ∃ u, u ++ s8 = v := by
                                    obtain ⟨u, hu, -⟩ := parseRunLen4_inv s7 y s8 h8
                                    exact sub_comp sub7 ⟨u, hu⟩
                                  have sub9 : ∃ u, u ++ s9 = v := sub_comp sub8 (munchWs1_inv s8 s9 h9)
                                  have sub10 : ∃ u, u ++ s10 = v := by
                                    obtain ⟨u, hu, -⟩ := parseField_inv 0 23 s9 hh s10 h10
                                    exact sub_comp sub9 ⟨u, hu⟩
                                  have hcolon : ':' ∈ v := by
                                    refine mem_of_sub sub10 ?_
                                    rw [expectChar_inv ':' s10 s11 h11]
                                    simp
                                  obtain ⟨hdt, hok⟩ := mkDateTime_some _ _ _ _ _ _ _ _ h
                                  subst hdt
                                  exact ⟨hok, ⟨off, rfl⟩, hcolon⟩

/-- Inverting the plain-date parser: the result passed the constructor checks,
is naive at midnight, and the input consists of digits, dashes and spaces. -/
theorem parseDateFmt_some (v : List Char) (dt : PyDateTime) (h : parseDateFmt v = some dt) :
    dtOKb dt.year dt.month dt.day dt.hour dt.minute dt.second dt.tzOffset = true ∧
    dt.tzOffset = none ∧ dt.hour = 0 ∧ dt.minute = 0 ∧ dt.second = 0 ∧
    ∀ c ∈ v, isDigitC c = true ∨ c = '-' ∨ c = ' ' := by
  unfold parseDateFmt at h
  cases h1 : parseRunLen4 v with
  | none => simp [h1] at h
  | some p0 =>
    obtain ⟨y, s1⟩ := p0
    simp only [h1] at h
    cases h2 : expectChar '-' s1 with
    | none => simp [h2] at h
    | some s2 =>
      simp only [h2] at h
      cases h3 : parseField 1 12 s2 with
      | none => simp [h3] at h
      | some p2 =>
        obtain ⟨mo, s3⟩ := p2
        simp only [h3] at h
        cases h4 : expectChar '-' s3 with
        | none => simp [h4] at h
        | some s4 =>
          simp only [h4] at h
          cases h5 : parseDay s4 with
          | none => simp [h5] at h
          | some p4 =>
            obtain ⟨d, s5⟩ := p4
            simp only [h5] at h
            by_cases hend : s5 = []
            case neg => rw [if_neg hend] at h; cases h
            rw [if_pos hend] at h
            have cls1 : ∃ u, u ++ s1 = v ∧ ∀ x ∈ u, isDigitC x = true ∨ x = '-' ∨ x = ' ' := by
              obtain ⟨u, hu, hcl⟩ := parseRunLen4_inv v y s1 h1
              exact ⟨u, hu, fun x hx => Or.inl (hcl x hx)⟩
            have cls2 : ∃ u, u ++ s2 = v ∧ ∀ x ∈ u, isDigitC x = true ∨ x = '-' ∨ x = ' ' := by
              refine subP_comp _ cls1 ⟨['-'], (expectChar_inv '-' s1 s2 h2).symm, ?_⟩
              intro x hx
              simp only [List.mem_cons, List.not_mem_nil, or_false] at hx
              subst hx
              exact Or.inr (Or.inl rfl)
            have cls3 : ∃ u, u ++ s3 = v ∧ ∀ x ∈ u, isDigitC x = true ∨ x = '-' ∨ x = ' ' := by
              obtain ⟨u, hu, hcl⟩ := parseField_inv 1 12 s2 mo s3 h3
              exact subP_comp _ cls2 ⟨u, hu, fun x hx => Or.inl (hcl x hx)⟩
            have cls4 : ∃ u, u ++ s4 = v ∧ ∀ x ∈ u, isDigitC x = true ∨ x = '-' ∨ x = ' ' := by
              refine subP_comp _ cls3 ⟨['-'], (expectChar_inv '-' s3 s4 h4).symm, ?_⟩
              intro x hx
              simp only [List.mem_cons, List.not_mem_nil, or_false] at hx
              subst hx
              exact Or.inr (Or.inl rfl)
            have cls5 : ∃ u, u ++ s5 = v ∧ ∀ x ∈ u, isDigitC x = true ∨ x = '-' ∨ x = ' ' := by
              obtain ⟨u, hu, hcl⟩ := parseDay_inv s4 d s5 h5
              refine subP_comp _ cls4 ⟨u, hu, ?_⟩
              intro x hx
              rcases hcl x hx with hx1 | hx1
              · exact Or.inl hx1
              · exact Or.inr (Or.inr hx1)
            have hchars : ∀ c ∈ v, isDigitC c = true ∨ c = '-' ∨ c = ' ' := by
              obtain ⟨u, hu, hcl⟩ := cls5
              rw [hend, List.append_nil] at hu
              rw [← hu]
              exact hcl
            obtain ⟨hdt, hok⟩ := mkDateTime_some _ _ _ _ _ _ _ _ h
            subst hdt
            exact ⟨hok, rfl, rfl, rfl, rfl, hchars⟩

/-! ## Lemmas: `parse_datetime` and `normalize_date` on rendered strings -/

theorem contains_iff_mem (v : List Char) (c : Char) : v.contains c = true ↔ c ∈ v := by
  induction v with
  | nil => simp
  | cons a t ih =>
    rw [List.contains_cons]
    simp only [Bool.or_eq_true, beq_iff_eq, List.mem_cons, ih]

theorem all_digits_mem (v : List Char) (c : Char) (hc : c ∈ v) (hd : isDigitC c = false) :
    allDigits v = false := by
  have hall : v.all isDigitC = false := by
    by_contra hx
    rw [Bool.not_eq_false] at hx
    have := List.all_eq_true.mp hx c hc
    rw [hd] at this
    cases this
  simp [allDigits, hall]

theorem dash_mem_isoDate (dt : PyDateTime) : '-' ∈ isoDate dt := by
  simp [isoDate]

theorem isoDate_chars (dt : PyDateTime) :
    ∀ c ∈ isoDate dt, isDigitC c = true ∨ c = '-' := by
  intro c hc
  unfold isoDate at hc
  rcases List.mem_append.mp hc with h | h
  · rcases List.mem_append.mp h with h | h
    · exact Or.inl (pad4_digits _ c h)
    · rcases List.mem_cons.mp h with h | h
      · exact Or.inr h
      · exact Or.inl (pad2_digits _ c h)
  · rcases List.mem_cons.mp h with h | h
    · exact Or.inr h
    · exact Or.inl (pad2_digits _ c h)

theorem allDigits_isoDate (dt : PyDateTime) : allDigits (isoDate dt) = false :=
  all_digits_mem _ '-' (dash_mem_isoDate dt) rfl

theorem dash_mem_isoDateTime (dt : PyDateTime) : '-' ∈ isoDateTime dt := by
  unfold isoDateTime
  refine List.mem_append.mpr (Or.inl ?_)
  refine List.mem_append.mpr (Or.inl ?_)
  refine List.mem_append.mpr (Or.inl ?_)
  exact List.mem_append.mpr (Or.inl (dash_mem_isoDate dt))

theorem allDigits_isoDateTime (dt : PyDateTime) : allDigits (isoDateTime dt) = false :=
  all_digits_mem _ '-' (dash_mem_isoDateTime dt) rfl

theorem colon_mem_isoDateTime (dt : PyDateTime) : ':' ∈ isoDateTime dt := by
  unfold isoDateTime
  refine List.mem_append.mpr (Or.inl ?_)
  refine List.mem_append.mpr (Or.inl ?_)
  refine List.mem_append.mpr (Or.inr ?_)
  exact List.mem_cons.mpr (Or.inl rfl)

theorem isoDate_ne_nil (dt : PyDateTime) : isoDate dt ≠ [] := by
  simp [isoDate, pad4]

theorem isoDateTime_ne_nil (dt : PyDateTime) : isoDateTime dt ≠ [] := by
  simp [isoDateTime, isoDate, pad4]

theorem lookupName_none (key : List Char) (names : List (List Char))
    (h : ∀ n ∈ names, (n == key) = false) : lookupName key names = none := by
  induction names with
  | nil => rfl
  | cons n rest ih =>
    simp only [lookupName]
    rw [if_neg (by simp [h n (by simp)]), ih (fun m hm => h m (by simp [hm]))]
    rfl

theorem list_beq_cons (a b : Char) (as bs : List Char) :
    ((a :: as : List Char) == (b :: bs)) = (a == b && as == bs) := rfl

theorem matchName3_digit_head (names : List (List Char))
    (hn : (names.all fun nm =>
      match nm.head? with
      | some c0 => !isDigitC c0
      | none => false) = true)
    (a : Char) (ha : isDigitC a = true) (t : List Char) :
    matchName3 names (a :: t) = none := by
  cases t with
  | nil => rfl
  | cons b t2 =>
    cases t2 with
    | nil => rfl
    | cons c t3 =>
      simp only [matchName3]
      rw [lookupName_none]
      · intro nm hnm
        have hh := List.all_eq_true.mp hn nm hnm
        cases nm with
        | nil => simp at hh
        | cons c0 nm0 =>
          simp only [List.head?_cons, Bool.not_eq_true'] at hh
          rw [list_beq_cons]
          have hne : (c0 == toLowerC a) = false := by
            rw [beq_eq_false_iff_ne]
            rw [toLowerC_digit a ha]
            intro he
            rw [he, ha] at hh
            cases hh
          rw [hne]
          rfl

theorem parseRFC822_digit_head (a : Char) (ha : isDigitC a = true) (t : List Char) :
    parseRFC822 (a :: t) = none := by
  have hm : matchName3 weekdayNames (a :: t) = none :=
    matchName3_digit_head weekdayNames (by decide) a ha t
  unfold parseRFC822
  simp only [hm]

theorem parseRFC822_pad4_start (y : Nat) (rest : List Char) :
    parseRFC822 (pad4 y ++ rest) = none := by
  show parseRFC822 (digitChar (y / 1000) ::
    ([digitChar (y / 100 % 10), digitChar (y / 10 % 10), digitChar (y % 10)] ++ rest)) = none
  exact parseRFC822_digit_head _ (digitChar_digit _) _

/-- `parse_datetime` on the rendered form of a valid plain date: only the
`"%Y-%m-%d"` format accepts it, yielding midnight of that date. -/
theorem parse_datetime_isoDate (y m d : Nat) (hv : dtOKb y m d 0 0 0 none = true) :
    parse_datetime (isoDate ⟨y, m, d, 0, 0, 0, none⟩) =
      .ok (some ⟨y, m, d, 0, 0, 0, none⟩) := by
  have hshape : isoDate (⟨y, m, d, 0, 0, 0, none⟩ : PyDateTime) =
      pad4 y ++ '-' :: (pad2 m ++ '-' :: pad2 d) := by
    simp [isoDate]
  unfold parse_datetime
  rw [if_neg (isoDate_ne_nil _)]
  rw [if_neg (by rw [allDigits_isoDate]; simp)]
  rw [hshape]
  simp only [parseISOz_isoDate_none y m d hv,
    show pad4 y ++ '-' :: (pad2 m ++ '-' :: pad2 d) =
      pad4 y ++ ('-' :: (pad2 m ++ '-' :: pad2 d)) from rfl,
    parseRFC822_pad4_start, parseDateFmt_isoDate y m d hv]

/-- `normalize_date` is the identity on the rendered form of a valid plain
date (the date-only branch re-renders the same string). -/
theorem normalize_isoDate (y m d : Nat) (hv : dtOKb y m d 0 0 0 none = true) :
    normalize_date (isoDate ⟨y, m, d, 0, 0, 0, none⟩) =
      .ok (isoDate ⟨y, m, d, 0, 0, 0, none⟩) := by
  unfold normalize_date
  simp only [parse_datetime_isoDate y m d hv]
  rw [if_neg ?hcond]
  case hcond =>
    simp only [Bool.or_eq_true, not_or]
    refine ⟨⟨?_, ?_⟩, ?_⟩
    · rw [allDigits_isoDate]
      simp
    · simp only [Bool.not_eq_true]
      by_contra hx
      rw [Bool.not_eq_false, contains_iff_mem] at hx
      rcases isoDate_chars _ 'T' hx with hh | hh
      · cases hh
      · cases hh
    · simp only [Bool.not_eq_true]
      by_contra hx
      rw [Bool.not_eq_false, contains_iff_mem] at hx
      rcases isoDate_chars _ ':' hx with hh | hh
      · cases hh
      · cases hh

/-- `parse_datetime` rejects the `isoformat` of a valid naive datetime
(it carries no UTC offset, so `%z` fails; the other formats mismatch). -/
theorem parse_datetime_isoDateTime_naive (dt : PyDateTime) (ho : dt.tzOffset = none)
    (hv : dtOKb dt.year dt.month dt.day dt.hour dt.minute dt.second dt.tzOffset = true) :
    parse_datetime (isoDateTime dt) = .ok none := by
  have hshape : isoDateTime dt = pad4 dt.year ++ ('-' :: (pad2 dt.month ++ ('-' :: (pad2 dt.day ++ ('T' :: (pad2 dt.hour ++ (':' :: (pad2 dt.minute ++ (':' :: (pad2 dt.second ++ ([] : List Char))))))))))) := by
    simp [isoDateTime, isoDate, ho, List.append_assoc]
  unfold parse_datetime
  rw [if_neg (isoDateTime_ne_nil dt)]
  rw [if_neg (by rw [allDigits_isoDateTime dt]; simp)]
  simp only [parseISOz_isoDateTime_naive_none dt ho hv,
    parseDateFmt_isoDateTime_none dt ho hv]
  rw [hshape]
  simp only [parseRFC822_pad4_start]

/-- `normalize_date` is the identity on the `isoformat` of a valid aware
datetime. -/
theorem normalize_isoDateTime_aware (dt : PyDateTime) (o : Int) (ho : dt.tzOffset = some o)
    (hv : dtOKb dt.year dt.month dt.day dt.hour dt.minute dt.second dt.tzOffset = true) :
    normalize_date (isoDateTime dt) = .ok (isoDateTime dt) := by
  unfold normalize_date
  have hp : parse_datetime (isoDateTime dt) = .ok (some dt) := by
    unfold parse_datetime
    rw [if_neg (isoDateTime_ne_nil dt)]
    rw [if_neg (by rw [allDigits_isoDateTime dt]; simp)]
    simp only [parseISOz_isoDateTime dt o ho hv]
  simp only [hp]
  rw [if_pos ?hcond]
  case hcond =>
    simp only [Bool.or_eq_true, contains_iff_mem]
    exact Or.inr (colon_mem_isoDateTime dt)

/-- `normalize_date` on a digit string whose epoch conversion succeeds. -/
theorem normalize_digits (v : List Char) (dt : PyDateTime) (hd : allDigits v = true)
    (hu : utcfromtimestamp (natOfDigits v) = some dt) :
    normalize_date v = .ok (isoDateTime dt) := by
  have hne : v ≠ [] := by
    intro he
    rw [he] at hd
    cases hd
  unfold normalize_date parse_datetime
  rw [if_neg hne, if_pos hd]
  simp only [hu]
  rw [if_pos (by simp [hd])]

/-! ## Lemmas: inverting `parse_datetime` and idempotence of `normalize_date` -/

theorem parse_datetime_ok_some (v : List Char) (dt : PyDateTime)
    (h : parse_datetime v = .ok (some dt)) :
    (allDigits v = true ∧ utcfromtimestamp (natOfDigits v) = some dt) ∨
    (allDigits v = false ∧
      (parseISOz v = some dt ∨
        (parseISOz v = none ∧ parseRFC822 v = some dt) ∨
        (parseISOz v = none ∧ parseRFC822 v = none ∧ parseDateFmt v = some dt))) := by
  unfold parse_datetime at h
  by_cases hnil : v = []
  · rw [if_pos hnil] at h
    cases h
  rw [if_neg hnil] at h
  by_cases hd : allDigits v = true
  · rw [if_pos hd] at h
    left
    refine ⟨hd, ?_⟩
    cases hu : utcfromtimestamp (natOfDigits v) with
    | none => rw [hu] at h; cases h
    | some dt' =>
      rw [hu] at h
      cases h
      rfl
  · rw [if_neg hd] at h
    right
    refine ⟨by simpa using hd, ?_⟩
    cases hiso : parseISOz v with
    | some dt' =>
      simp only [hiso] at h
      cases h
      exact Or.inl rfl
    | none =>
      simp only [hiso] at h
      cases hrfc : parseRFC822 v with
      | some dt' =>
        simp only [hrfc] at h
        cases h
        exact Or.inr (Or.inl ⟨rfl, rfl⟩)
      | none =>
        simp only [hrfc] at h
        have hd2 : parseDateFmt v = some dt := by injection h
        exact Or.inr (Or.inr ⟨rfl, rfl, hd2⟩)

theorem normalize_date_nil : normalize_date [] = .ok [] := rfl

/-- Core idempotence: on a value that is not all digits, a successful
`normalize_date` output is a fixed point of `normalize_date`. -/
theorem normalize_date_idem (v w : List Char) (hnd : allDigits v = false)
    (h : normalize_date v = .ok w) : normalize_date w = .ok w := by
  unfold normalize_date at h
  cases hp : parse_datetime v with
  | error e => rw [hp] at h; cases h
  | ok od =>
    rw [hp] at h
    cases od with
    | none =>
      cases h
      exact normalize_date_nil
    | some dt =>
      simp only [] at h
      rcases parse_datetime_ok_some v dt hp with ⟨hd, -⟩ | ⟨-, hcase⟩
      · rw [hd] at hnd; cases hnd
      by_cases hb : (allDigits v || v.contains 'T' || v.contains ':') = true
      · rw [if_pos hb] at h
        cases h
        rcases hcase with hiso | ⟨-, hrfc⟩ | ⟨-, -, hdate⟩
        · obtain ⟨hok, ⟨o, ho⟩, -⟩ := parseISOz_some v dt hiso
          exact normalize_isoDateTime_aware dt o ho hok
        · obtain ⟨hok, ⟨o, ho⟩, -⟩ := parseRFC822_some v dt hrfc
          exact normalize_isoDateTime_aware dt o ho hok
        · exfalso
          obtain ⟨-, -, -, -, -, hch⟩ := parseDateFmt_some v dt hdate
          rw [hnd] at hb
          simp only [Bool.false_or, Bool.or_eq_true, contains_iff_mem] at hb
          rcases hb with hT | hC
          · rcases hch 'T' hT with hx | hx | hx <;> cases hx
          · rcases hch ':' hC with hx | hx | hx <;> cases hx
      · rw [if_neg hb] at h
        cases h
        rcases hcase with hiso | ⟨-, hrfc⟩ | ⟨-, -, hdate⟩
        · exfalso
          obtain ⟨-, -, hcol⟩ := parseISOz_some v dt hiso
          exact hb (by simp [contains_iff_mem, hcol])
        · exfalso
          obtain ⟨-, -, hcol⟩ := parseRFC822_some v dt hrfc
          exact hb (by simp [contains_iff_mem, hcol])
        · obtain ⟨hok, ho, hh0, hm0, hs0, -⟩ := parseDateFmt_some v dt hdate
          rw [hh0, hm0, hs0, ho] at hok
          have hn := normalize_isoDate dt.year dt.month dt.day hok
          have hiso : isoDate (⟨dt.year, dt.month, dt.day, 0, 0, 0, none⟩ : PyDateTime) =
              isoDate dt := rfl
          rwa [hiso] at hn

/-! ## Lemmas: shape of produced date strings -/

theorem isoDateShapeOK_render (y m d : Nat) (hy : y ≤ 9999) (hm1 : 1 ≤ m) (hm2 : m ≤ 12)
    (hd1 : 1 ≤ d) (hd2 : d ≤ 31) :
    isoDateShapeOK (pad4 y ++ '-' :: (pad2 m ++ '-' :: pad2 d)) = true := by
  show isoDateShapeOK [digitChar (y / 1000), digitChar (y / 100 % 10), digitChar (y / 10 % 10),
    digitChar (y % 10), '-', digitChar (m / 10), digitChar (m % 10), '-',
    digitChar (d / 10), digitChar (d % 10)] = true
  simp only [isoDateShapeOK, digitChar_digit, beq_self_eq_true, Bool.and_eq_true,
    decide_eq_true_eq, Bool.and_true, Bool.true_and]
  rw [digitVal_digitChar _ (by omega), digitVal_digitChar _ (by omega),
    digitVal_digitChar _ (by omega), digitVal_digitChar _ (by omega)]
  omega

theorem isoDateTimeShapeOK_render (dt : PyDateTime) (ho : dt.tzOffset = none)
    (hv : dtOKb dt.year dt.month dt.day dt.hour dt.minute dt.second dt.tzOffset = true) :
    isoDateTimeShapeOK (isoDateTime dt) = true := by
  have hv' := hv
  simp only [dtOKb, offOKb, Bool.and_eq_true, decide_eq_true_eq] at hv'
  obtain ⟨⟨hy1, hy2, hm1, hm2, hd1, hd2, hh, hmi, hs⟩, -⟩ := hv'
  have hd31 : dt.day ≤ 31 := Nat.le_trans hd2 (daysInMonth_le_31 _ _)
  have hshape : isoDateTime dt = [digitChar (dt.year / 1000), digitChar (dt.year / 100 % 10),
      digitChar (dt.year / 10 % 10), digitChar (dt.year % 10), '-',
      digitChar (dt.month / 10), digitChar (dt.month % 10), '-',
      digitChar (dt.day / 10), digitChar (dt.day % 10), 'T',
      digitChar (dt.hour / 10), digitChar (dt.hour % 10), ':',
      digitChar (dt.minute / 10), digitChar (dt.minute % 10), ':',
      digitChar (dt.second / 10), digitChar (dt.second % 10)] := by
    simp [isoDateTime, isoDate, pad4, pad2, ho]
  rw [hshape]
  unfold isoDateTimeShapeOK
  rw [show (([digitChar (dt.year / 1000), digitChar (dt.year / 100 % 10),
      digitChar (dt.year / 10 % 10), digitChar (dt.year % 10), '-',
      digitChar (dt.month / 10), digitChar (dt.month % 10), '-',
      digitChar (dt.day / 10), digitChar (dt.day % 10), 'T',
      digitChar (dt.hour / 10), digitChar (dt.hour % 10), ':',
      digitChar (dt.minute / 10), digitChar (dt.minute % 10), ':',
      digitChar (dt.second / 10), digitChar (dt.second % 10)] : List Char).take 10) =
    [digitChar (dt.year / 1000), digitChar (dt.year / 100 % 10),
      digitChar (dt.year / 10 % 10), digitChar (dt.year % 10), '-',
      digitChar (dt.month / 10), digitChar (dt.month % 10), '-',
      digitChar (dt.day / 10), digitChar (dt.day % 10)] from rfl]
  rw [show (([digitChar (dt.year / 1000), digitChar (dt.year / 100 % 10),
      digitChar (dt.year / 10 % 10), digitChar (dt.year % 10), '-',
      digitChar (dt.month / 10), digitChar (dt.month % 10), '-',
      digitChar (dt.day / 10), digitChar (dt.day % 10), 'T',
      digitChar (dt.hour / 10), digitChar (dt.hour % 10), ':',
      digitChar (dt.minute / 10), digitChar (dt.minute % 10), ':',
      digitChar (dt.second / 10), digitChar (dt.second % 10)] : List Char).drop 10) =
    ['T', digitChar (dt.hour / 10), digitChar (dt.hour % 10), ':',
      digitChar (dt.minute / 10), digitChar (dt.minute % 10), ':',
      digitChar (dt.second / 10), digitChar (dt.second % 10)] from rfl]
  have hdate : isoDateShapeOK [digitChar (dt.year / 1000), digitChar (dt.year / 100 % 10),
      digitChar (dt.year / 10 % 10), digitChar (dt.year % 10), '-',
      digitChar (dt.month / 10), digitChar (dt.month % 10), '-',
      digitChar (dt.day / 10), digitChar (dt.day % 10)] = true := by
    have := isoDateShapeOK_render dt.year dt.month dt.day hy2 hm1 hm2 hd1 hd31
    simpa [pad4, pad2] using this
  rw [hdate]
  simp only [digitChar_digit, beq_self_eq_true, Bool.and_eq_true, decide_eq_true_eq,
    Bool.and_true, Bool.true_and, Bool.and_self]
  rw [digitVal_digitChar _ (by omega), digitVal_digitChar _ (by omega),
    digitVal_digitChar _ (by omega), digitVal_digitChar _ (by omega),
    digitVal_digitChar _ (by omega), digitVal_digitChar _ (by omega)]
  omega

/-! ## Lemmas: Transform stage -/

theorem transform_cons_ok (r : JobRecord) (rs : List JobRecord) (out : List JobRecord)
    (h : transform (r :: rs) = .ok out) :
    ∃ r' rs', transformRecord r = .ok r' ∧ transform rs = .ok rs' ∧ out = r' :: rs' := by
  unfold transform at h
  cases h1 : transformRecord r with
  | error e => rw [h1] at h; cases h
  | ok r' =>
    rw [h1] at h
    cases h2 : transform rs with
    | error e => rw [h2] at h; simp only [h2] at h; cases h
    | ok rs' =>
      rw [h2] at h
      simp only [] at h
      cases h
      exact ⟨r', rs', rfl, rfl, rfl⟩

theorem transformRecord_ok (r : JobRecord) (r' : JobRecord)
    (h : transformRecord r = .ok r') :
    ∃ nd, normalize_date r.date_posted = .ok nd ∧
      r' = { source := r.source, source_id := r.source_id,
             title := pyStrip r.title, company := pyStrip r.company,
             location := pyStrip r.location, url := pyStrip r.url,
             tags := pyStrip r.tags, date_posted := nd,
             salary := pyStrip r.salary, description := pyStrip r.description } := by
  unfold transformRecord at h
  cases h1 : normalize_date r.date_posted with
  | error e => rw [h1] at h; cases h
  | ok nd =>
    rw [h1] at h
    cases h
    exact ⟨nd, rfl, rfl⟩

theorem transformRecord_idem (r r' : JobRecord) (hnd : allDigits r.date_posted = false)
    (h : transformRecord r = .ok r') : transformRecord r' = .ok r' := by
  obtain ⟨nd, hn, hr'⟩ := transformRecord_ok r r' h
  have hn2 : normalize_date nd = .ok nd := normalize_date_idem r.date_posted nd hnd hn
  unfold transformRecord
  rw [hr']
  simp only [hn2]
  rw [pyStrip_idem, pyStrip_idem, pyStrip_idem, pyStrip_idem, pyStrip_idem, pyStrip_idem,
    pyStrip_idem]

theorem transform_idem (rs out : List JobRecord)
    (hnd : ∀ r ∈ rs, allDigits r.date_posted = false)
    (h : transform rs = .ok out) : transform out = .ok out := by
  induction rs generalizing out with
  | nil =>
    cases h
    rfl
  | cons r rs ih =>
    obtain ⟨r', rs', h1, h2, hout⟩ := transform_cons_ok r rs out h
    subst hout
    have hr'i := transformRecord_idem r r' (hnd r (by simp)) h1
    have hrs'i := ih rs' (fun x hx => hnd x (List.mem_cons_of_mem r hx)) h2
    unfold transform
    rw [hr'i]
    simp only [hrs'i]

/-! ## Lemmas: Filter stage -/

theorem recencyB_some (now : Int) (r : JobRecord) (dt : PyDateTime)
    (hp : parse_datetime r.date_posted = .ok (some dt)) :
    recencyB now r = decide (now - 86400 ≤ pyTimestamp dt) := by
  unfold recencyB
  rw [hp]

theorem recencyB_none (now : Int) (r : JobRecord)
    (hp : parse_datetime r.date_posted = .ok none) :
    recencyB now r = false := by
  unfold recencyB
  rw [hp]

/-- A successful `filter_jobs` loop computes exactly the filter by `keepB`. -/
theorem filterGo_ok_eq (lowered : List (List Char)) (now : Int) :
    ∀ records out, filterGo lowered now records = .ok out →
      out = records.filter (keepB lowered now) := by
  intro records
  induction records with
  | nil =>
    intro out h
    cases h
    rfl
  | cons r rs ih =>
    intro out h
    unfold filterGo at h
    by_cases hskip : lowered ≠ [] ∧ title_matches r.title lowered = false
    · rw [if_pos hskip] at h
      have hout := ih out h
      have hk : keepB lowered now r = false := by
        unfold keepB
        have : lowered.isEmpty = false := by
          cases hl : lowered with
          | nil => exact absurd hl hskip.1
          | cons a l => rfl
        rw [this, hskip.2]
        rfl
      rw [List.filter_cons, if_neg (by simp [hk])]
      exact hout
    · rw [if_neg hskip] at h
      have htitle : (lowered.isEmpty || title_matches r.title lowered) = true := by
        rw [not_and_or] at hskip
        rcases hskip with hl | hm
        · push_neg at hl
          rw [hl]
          rfl
        · simp only [Bool.not_eq_false] at hm
          rw [hm]
          simp
      cases hp : parse_datetime r.date_posted with
      | error e => rw [hp] at h; cases h
      | ok od =>
        rw [hp] at h
        cases od with
        | none =>
          have hout := ih out h
          have hk : keepB lowered now r = false := by
            unfold keepB
            rw [recencyB_none now r hp]
            simp
          rw [List.filter_cons, if_neg (by simp [hk])]
          exact hout
        | some dt =>
          simp only [] at h
          by_cases hts : pyTimestamp dt < now - 86400
          · rw [if_pos hts] at h
            have hout := ih out h
            have hk : keepB lowered now r = false := by
              unfold keepB
              rw [recencyB_some now r dt hp]
              have : ¬(now - 86400 ≤ pyTimestamp dt) := by omega
              simp [this]
            rw [List.filter_cons, if_neg (by simp [hk])]
            exact hout
          · rw [if_neg hts] at h
            cases hrest : filterGo lowered now rs with
            | error e => rw [hrest] at h; cases h
            | ok out' =>
              rw [hrest] at h
              simp only [] at h
              cases h
              have hout' := ih out' hrest
              have hk : keepB lowered now r = true := by
                unfold keepB
                rw [recencyB_some now r dt hp, htitle]
                have : now - 86400 ≤ pyTimestamp dt := by omega
                simp [this]
              rw [List.filter_cons, if_pos (by simp [hk])]
              rw [hout']

theorem filter_jobs_ok_eq (records : List JobRecord) (titles : List (List Char)) (now : Int)
    (out : List JobRecord) (h : filter_jobs records titles now = .ok out) :
    out = records.filter (keepB (titles.map lowerStr) now) :=
  filterGo_ok_eq (titles.map lowerStr) now records out h

/-! ## Lemmas: the extraction loop and `run_etl` -/

theorem extractAll_error_inv (eo : List Char → List JobRecord) :
    ∀ sel evs e, extractAll eo sel = (evs, .error e) →
      ∃ nm pre suf, e = RunError.unknownPortal nm ∧ sel = pre ++ nm :: suf ∧
        (∀ x ∈ pre, isKnown x = true) ∧ isKnown nm = false ∧
        evs = pre.map EtlEvent.extractCall := by
  intro sel
  induction sel with
  | nil =>
    intro evs e h
    simp only [extractAll] at h
    cases h
  | cons n rest ih =>
    intro evs e h
    simp only [extractAll] at h
    by_cases hk : isKnown n = true
    · rw [if_pos hk] at h
      cases hrest : extractAll eo rest with
      | mk evs0 res =>
        rw [hrest] at h
        cases res with
        | ok more => simp only [] at h; cases h
        | error e0 =>
          simp only [] at h
          obtain ⟨he, hevs⟩ := Prod.mk.injEq .. ▸ h
          injection h with h1 h2
          injection h2 with h3
          obtain ⟨nm, pre, suf, h4, h5, h6, h7, h8⟩ := ih evs0 e0 hrest
          refine ⟨nm, n :: pre, suf, by rw [← h3]; exact h4, by rw [h5, List.cons_append], ?_, h7, ?_⟩
          · intro x hx
            rcases List.mem_cons.mp hx with he | hm
            · subst he; exact hk
            · exact h6 x hm
          · rw [← h1, h8]
            rfl
    · rw [if_neg hk] at h
      injection h with h1 h2
      injection h2 with h3
      exact ⟨n, [], rest, h3.symm, rfl, by simp, by simpa using hk, by rw [← h1]; rfl⟩

theorem extractAll_ok_inv (eo : List Char → List JobRecord) :
    ∀ sel evs recs, extractAll eo sel = (evs, .ok recs) →
      (∀ x ∈ sel, isKnown x = true) ∧ evs = sel.map EtlEvent.extractCall := by
  intro sel
  induction sel with
  | nil =>
    intro evs recs h
    simp only [extractAll] at h
    injection h with h1 h2
    rw [← h1]
    exact ⟨by simp, rfl⟩
  | cons n rest ih =>
    intro evs recs h
    simp only [extractAll] at h
    by_cases hk : isKnown n = true
    · rw [if_pos hk] at h
      cases hrest : extractAll eo rest with
      | mk evs0 res =>
        rw [hrest] at h
        cases res with
        | error e0 => simp only [] at h; cases h
        | ok more =>
          simp only [] at h
          injection h with h1 h2
          obtain ⟨h3, h4⟩ := ih evs0 more hrest
          refine ⟨?_, ?_⟩
          · intro x hx
            rcases List.mem_cons.mp hx with he | hm
            · subst he; exact hk
            · exact h3 x hm
          · rw [← h1, h4]
            rfl
    · rw [if_neg hk] at h
      cases h

theorem run_etl_unknown_inv (eo : List Char → List JobRecord) (sel : List (List Char))
    (fmt : List Char) (titles : List (List Char)) (now : Int)
    (evs : List EtlEvent) (nm : List Char)
    (h : run_etl eo sel fmt titles now = (evs, .error (.unknownPortal nm))) :
    ∃ pre suf, sel = pre ++ nm :: suf ∧ (∀ x ∈ pre, isKnown x = true) ∧
      isKnown nm = false ∧ evs = pre.map EtlEvent.extractCall ∧
      EtlEvent.extractCall nm ∉ evs ∧ (∀ f, EtlEvent.sinkWrite f ∉ evs) := by
  unfold run_etl at h
  cases hea : extractAll eo sel with
  | mk evs0 res =>
    rw [hea] at h
    cases res with
    | error e =>
      simp only [] at h
      injection h with h1 h2
      injection h2 with h3
      subst h3
      obtain ⟨nm', pre, suf, h4, h5, h6, h7, h8⟩ := extractAll_error_inv eo sel evs0 _ hea
      have hnm : nm' = nm := by
        injection h4 with hx
        exact hx.symm
      rw [hnm] at h5 h7
      subst h1
      refine ⟨pre, suf, h5, h6, h7, h8, ?_, ?_⟩
      · intro hmem
        rw [h8] at hmem
        obtain ⟨x, hx, he⟩ := List.mem_map.mp hmem
        injection he with he'
        rw [he'] at hx
        have := h6 nm hx
        rw [this] at h7
        cases h7
      · intro f hmem
        rw [h8] at hmem
        obtain ⟨x, hx, he⟩ := List.mem_map.mp hmem
        cases he
    | ok records =>
      simp only [] at h
      cases ht : transform records with
      | error e => rw [ht] at h; simp only [] at h; injection h with h1 h2; injection h2 with h3; cases h3
      | ok cleaned =>
        rw [ht] at h
        simp only [] at h
        cases hf : filter_jobs cleaned titles now with
        | error e =>
          rw [hf] at h; simp only [] at h
          injection h with h1 h2; injection h2 with h3; cases h3
        | ok filtered =>
          rw [hf] at h
          simp only [] at h
          by_cases hfm : fmt = chars "csv" ∨ fmt = chars "jsonl" ∨ fmt = chars "sqlite"
          · rw [if_pos hfm] at h
            injection h with h1 h2
            cases h2
          · rw [if_neg hfm] at h
            injection h with h1 h2
            injection h2 with h3
            cases h3

theorem run_etl_unsupported_inv (eo : List Char → List JobRecord) (sel : List (List Char))
    (fmt : List Char) (titles : List (List Char)) (now : Int)
    (evs : List EtlEvent) (f : List Char)
    (h : run_etl eo sel fmt titles now = (evs, .error (.unsupportedFormat f))) :
    f = fmt ∧ ¬(fmt = chars "csv" ∨ fmt = chars "jsonl" ∨ fmt = chars "sqlite") ∧
      (∀ x ∈ sel, isKnown x = true) ∧ evs = sel.map EtlEvent.extractCall ∧
      (∀ g, EtlEvent.sinkWrite g ∉ evs) := by
  unfold run_etl at h
  cases hea : extractAll eo sel with
  | mk evs0 res =>
    rw [hea] at h
    cases res with
    | error e =>
      simp only [] at h
      injection h with h1 h2
      injection h2 with h3
      obtain ⟨nm', pre, suf, h4, -⟩ := extractAll_error_inv eo sel evs0 _ hea
      rw [h4] at h3
      cases h3
    | ok records =>
      simp only [] at h
      cases ht : transform records with
      | error e =>
        rw [ht] at h; simp only [] at h
        injection h with h1 h2; injection h2 with h3; cases h3
      | ok cleaned =>
        rw [ht] at h
        simp only [] at h
        cases hf : filter_jobs cleaned titles now with
        | error e =>
          rw [hf] at h; simp only [] at h
          injection h with h1 h2; injection h2 with h3; cases h3
        | ok filtered =>
          rw [hf] at h
          simp only [] at h
          by_cases hfm : fmt = chars "csv" ∨ fmt = chars "jsonl" ∨ fmt = chars "sqlite"
          · rw [if_pos hfm] at h
            injection h with h1 h2
            cases h2
          · rw [if_neg hfm] at h
            injection h with h1 h2
            injection h2 with h3
            injection h3 with h4
            obtain ⟨hk, hevs⟩ := extractAll_ok_inv eo sel evs0 records hea
            subst h1
            refine ⟨h4.symm, hfm, hk, hevs, ?_⟩
            intro g hmem
            rw [hevs] at hmem
            obtain ⟨x, hx, he⟩ := List.mem_map.mp hmem
            cases he

/-! ## Lemmas: the upsert sink -/

theorem rowsWithKey_upsert (tbl : List JobRecord) (r : JobRecord) :
    rowsWithKey (upsertRow tbl r) (rowKey r) = [r] := by
  unfold rowsWithKey upsertRow
  rw [List.filter_append]
  have h1 : (tbl.filter fun q => !(rowKey q == rowKey r)).filter
      (fun q => rowKey q == rowKey r) = [] := by
    rw [List.filter_eq_nil]
    intro a ha
    have hmem := List.of_mem_filter ha
    simp only [Bool.not_eq_true'] at hmem
    simp [hmem]
  rw [h1]
  simp

theorem upsertRow_uniq (tbl : List JobRecord) (r : JobRecord) (hu : uniqKeys tbl) :
    uniqKeys (upsertRow tbl r) := by
  unfold uniqKeys upsertRow at *
  rw [List.map_append, List.nodup_append]
  refine ⟨?_, by simp, ?_⟩
  · exact List.Nodup.sublist ((List.filter_sublist tbl).map rowKey) hu
  · intro k hk1 hk2
    simp only [List.map_cons, List.map_nil, List.mem_singleton] at hk2
    subst hk2
    obtain ⟨q, hq, hqk⟩ := List.mem_map.mp hk1
    have := List.of_mem_filter hq
    rw [hqk] at this
    simp at this

/-! ## Lemmas: records the Filter stage excludes -/

theorem filter_excludes (records : List JobRecord) (titles : List (List Char)) (now : Int)
    (out : List JobRecord) (r : JobRecord) (h : filter_jobs records titles now = .ok out)
    (hk : keepB (titles.map lowerStr) now r = false) : r ∉ out := by
  rw [filter_jobs_ok_eq records titles now out h]
  intro hm
  have := List.of_mem_filter hm
  rw [hk] at this
  cases this

/-! ## Lemmas: normalized dates carry no whitespace -/

theorem isoDate_no_space (dt : PyDateTime) : ∀ c ∈ isoDate dt, isSpaceC c = false := by
  intro c hc
  rcases isoDate_chars dt c hc with h | h
  · exact digit_not_space c h
  · subst h
    rfl

theorem pad2_no_space (n : Nat) : ∀ c ∈ pad2 n, isSpaceC c = false := by
  intro c hc
  exact digit_not_space c (pad2_digits n c hc)

theorem offRender_no_space (o : Int) : ∀ c ∈ offRender o, isSpaceC c = false := by
  intro c hc
  unfold offRender at hc
  rcases List.mem_cons.mp hc with h | h
  · subst h
    split <;> rfl
  · rcases List.mem_append.mp h with h | h
    · rcases List.mem_append.mp h with h | h
      · exact pad2_no_space _ c h
      · rcases List.mem_cons.mp h with h | h
        · subst h; rfl
        · exact pad2_no_space _ c h
    · by_cases hz : o.natAbs % 60 = 0
      · rw [if_pos hz] at h
        simp at h
      · rw [if_neg hz] at h
        rcases List.mem_cons.mp h with h | h
        · subst h; rfl
        · exact pad2_no_space _ c h

theorem isoDateTime_no_space (dt : PyDateTime) :
    ∀ c ∈ isoDateTime dt, isSpaceC c = false := by
  intro c hc
  unfold isoDateTime at hc
  rcases List.mem_append.mp hc with h | h
  · rcases List.mem_append.mp h with h | h
    · rcases List.mem_append.mp h with h | h
      · rcases List.mem_append.mp h with h | h
        · exact isoDate_no_space dt c h
        · rcases List.mem_cons.mp h with h | h
          · subst h; rfl
          · exact pad2_no_space _ c h
      · rcases List.mem_cons.mp h with h | h
        · subst h; rfl
        · exact pad2_no_space _ c h
    · rcases List.mem_cons.mp h with h | h
      · subst h; rfl
      · exact pad2_no_space _ c h
  · cases ho : dt.tzOffset with
    | none => rw [ho] at h; simp at h
    | some o =>
      rw [ho] at h
      exact offRender_no_space o c h

theorem normalize_out_no_ws (v w : List Char) (h : normalize_date v = .ok w) :
    pyStrip w = w := by
  unfold normalize_date at h
  cases hp : parse_datetime v with
  | error e => rw [hp] at h; cases h
  | ok od =>
    rw [hp] at h
    cases od with
    | none =>
      cases h
      rfl
    | some dt =>
      simp only [] at h
      split at h
      · cases h
        exact pyStrip_of_no_space _ (isoDateTime_no_space dt)
      · cases h
        exact pyStrip_of_no_space _ (isoDate_no_space dt)

/-! ## The claims -/

/-- Claim C1 (amended): `run_etl` raises a `ValueError` for an unknown source
name or an unsupported output format and never writes to a sink in either
case, but it does not fail fast: the unknown-name error is raised at that
name's position in the per-source loop, after every earlier known source's
`extract` has already been invoked, and the unsupported-format error is
raised only after all extracts (and the transform and filter stages) have
run. -/
theorem claim_C1_config_error_timing (eo : List Char → List JobRecord)
    (sel : List (List Char)) (fmt : List Char) (titles : List (List Char)) (now : Int)
    (evs : List EtlEvent) :
    (∀ nm, run_etl eo sel fmt titles now = (evs, .error (.unknownPortal nm)) →
      ∃ pre suf, sel = pre ++ nm :: suf ∧ (∀ x ∈ pre, isKnown x = true) ∧
        isKnown nm = false ∧ evs = pre.map EtlEvent.extractCall ∧
        (∀ f, EtlEvent.sinkWrite f ∉ evs)) ∧
    (∀ f, run_etl eo sel fmt titles now = (evs, .error (.unsupportedFormat f)) →
      f = fmt ∧ ¬(fmt = chars "csv" ∨ fmt = chars "jsonl" ∨ fmt = chars "sqlite") ∧
      evs = sel.map EtlEvent.extractCall ∧ (∀ g, EtlEvent.sinkWrite g ∉ evs)) := by
  constructor
  · intro nm h
    obtain ⟨pre, suf, h1, h2, h3, h4, h5, h6⟩ :=
      run_etl_unknown_inv eo sel fmt titles now evs nm h
    exact ⟨pre, suf, h1, h2, h3, h4, h6⟩
  · intro f h
    obtain ⟨h1, h2, h3, h4, h5⟩ := run_etl_unsupported_inv eo sel fmt titles now evs f h
    exact ⟨h1, h2, h4, h5⟩

/-- Witness for C1: a run selecting `remotive` then the unknown name `bogus`
fails with the unknown-source error, and the theorem locates `bogus` after
the already-performed `remotive` extract. -/
theorem claim_C1_witness :
    run_etl (fun _ => []) [chars "remotive", chars "bogus"] (chars "csv") [] 0 =
      ([EtlEvent.extractCall (chars "remotive")],
        .error (.unknownPortal (chars "bogus"))) ∧
    ∃ pre suf,
      ([chars "remotive", chars "bogus"] : List (List Char)) = pre ++ chars "bogus" :: suf ∧
      (∀ x ∈ pre, isKnown x = true) ∧ isKnown (chars "bogus") = false ∧
      ([EtlEvent.extractCall (chars "remotive")] : List EtlEvent) =
        pre.map EtlEvent.extractCall ∧
      (∀ f, EtlEvent.sinkWrite f ∉ ([EtlEvent.extractCall (chars "remotive")] : List EtlEvent)) :=
  ⟨rfl,
    (claim_C1_config_error_timing (fun _ => []) [chars "remotive", chars "bogus"]
      (chars "csv") [] 0 [EtlEvent.extractCall (chars "remotive")]).1
      (chars "bogus") rfl⟩

/-- Counterexample to C1 as stated: in that same run the unknown-source error
is reported only after the `remotive` extract has been invoked, so the
configuration error is not raised before all extraction. -/
theorem claim_C1_counterexample :
    (run_etl (fun _ => []) [chars "remotive", chars "bogus"] (chars "csv") [] 0).2 =
      .error (.unknownPortal (chars "bogus")) ∧
    EtlEvent.extractCall (chars "remotive") ∈
      (run_etl (fun _ => []) [chars "remotive", chars "bogus"] (chars "csv") [] 0).1 := by
  refine ⟨rfl, ?_⟩
  show EtlEvent.extractCall (chars "remotive") ∈ [EtlEvent.extractCall (chars "remotive")]
  exact List.mem_singleton.mpr rfl

/-- Claim C2 (amended): `transform` is idempotent on every record list in
which no record's raw `date_posted` is a pure digit string; on such lists a
successful transform output is transformed to itself. (Digit-string dates are
rewritten to a `T`-containing isoformat whose re-parse fails, so a second
pass erases them — the unrestricted claim is false.) -/
theorem claim_C2_transform_idem (rs out : List JobRecord)
    (hnd : ∀ r ∈ rs, allDigits r.date_posted = false)
    (h : transform rs = .ok out) : transform out = .ok out :=
  transform_idem rs out hnd h

/-- Witness for C2: transforming a record with a plain date and padded title
once and then again returns the first output unchanged. -/
theorem claim_C2_witness :
    (∀ r ∈ [recIsoDate], allDigits r.date_posted = false) ∧
    transform [recIsoDate] = .ok [recIsoDateT] ∧
    transform [recIsoDateT] = .ok [recIsoDateT] :=
  ⟨by decide, rfl, claim_C2_transform_idem [recIsoDate] [recIsoDateT] (by decide) rfl⟩

/-- Counterexample to C2 as stated: a record whose `date_posted` is the epoch
string `1700000000` is rewritten to `2023-11-14T22:13:20` by the first
transform and to the empty string by the second, so transform ∘ transform ≠
transform. -/
theorem claim_C2_counterexample :
    transform [recDigitDate] = .ok [recDigitDateT] ∧
    transform [recDigitDateT] = .ok [recDigitDateT2] ∧
    recDigitDateT ≠ recDigitDateT2 :=
  ⟨rfl, rfl, by decide⟩

/-- Claim C4: `normalize_date` returns every well-formed `YYYY-MM-DD` date
string (year 1–9999, month 1–12, day within the month) unchanged. -/
theorem claim_C4_plain_date_unchanged (y m d : Nat) (h1 : 1 ≤ y) (h2 : y ≤ 9999)
    (h3 : 1 ≤ m) (h4 : m ≤ 12) (h5 : 1 ≤ d) (h6 : d ≤ daysInMonth y m) :
    normalize_date (pad4 y ++ '-' :: pad2 m ++ '-' :: pad2 d) =
      .ok (pad4 y ++ '-' :: pad2 m ++ '-' :: pad2 d) := by
  have hv : dtOKb y m d 0 0 0 none = true := by
    simp only [dtOKb, offOKb, Bool.and_true, decide_eq_true_eq]
    exact ⟨h1, h2, h3, h4, h5, h6, by omega, by omega, by omega⟩
  have hn := normalize_isoDate y m d hv
  rwa [show isoDate (⟨y, m, d, 0, 0, 0, none⟩ : PyDateTime) =
    pad4 y ++ '-' :: pad2 m ++ '-' :: pad2 d from rfl] at hn

/-- Witness for C4: the leap day `2024-02-29` comes back verbatim. -/
theorem claim_C4_witness :
    normalize_date (chars "2024-02-29") = .ok (chars "2024-02-29") :=
  claim_C4_plain_date_unchanged 2024 2 29 (by decide) (by decide) (by decide)
    (by decide) (by decide) (by decide)

/-- Claim C5: an empty or unparseable raw date makes `parse_datetime` return
`None` rather than raise, `normalize_date` then returns the empty string, and
the Filter stage excludes every record whose `date_posted` parses to `None`,
whatever the title list. -/
theorem claim_C5_unparseable_empty_excluded :
    (∀ v, parse_datetime v = .ok none → normalize_date v = .ok []) ∧
    (∀ records titles now out (r : JobRecord),
      filter_jobs records titles now = .ok out →
      parse_datetime r.date_posted = .ok none → r ∉ out) := by
  constructor
  · intro v hp
    unfold normalize_date
    rw [hp]
  · intro records titles now out r hf hp
    apply filter_excludes records titles now out r hf
    unfold keepB
    rw [recencyB_none now r hp, Bool.and_false]

/-- Witness for C5: the unparseable date `soon` normalizes to the empty
string, and a record carrying it is dropped by the filter. -/
theorem claim_C5_witness :
    parse_datetime (chars "soon") = .ok none ∧
    normalize_date (chars "soon") = .ok [] ∧
    filter_jobs [recBadDate] [] 0 = .ok [] ∧
    recBadDate ∉ ([] : List JobRecord) :=
  ⟨rfl, claim_C5_unparseable_empty_excluded.1 (chars "soon") rfl, rfl,
    claim_C5_unparseable_empty_excluded.2 [recBadDate] [] 0 [] recBadDate rfl rfl⟩

/-- Claim C3 (amended): when the epoch conversion succeeds, a pure-digit raw
date normalizes to the naive isoformat of that UTC instant — a well-formed
ISO-8601 date-time whose components re-encode exactly the input seconds —
and output granularity follows the input class: inputs that are pure digits
or contain `T` or `:` yield a full date-time, all other parseable inputs
yield a well-formed date-only string. (Unrestricted, the claim is false:
digit inputs naming years beyond 9999 make `normalize_date` raise, because
`utcfromtimestamp`'s error is outside the `except ValueError`.) -/
theorem claim_C3_digit_and_granularity :
    (∀ v dt, allDigits v = true → utcfromtimestamp (natOfDigits v) = some dt →
      normalize_date v = .ok (isoDateTime dt) ∧
      isoDateTimeShapeOK (isoDateTime dt) = true ∧
      naiveEpochSecs dt = (natOfDigits v : Int) ∧ dt.tzOffset = none) ∧
    (∀ v dt, parse_datetime v = .ok (some dt) →
      ((allDigits v || v.contains 'T' || v.contains ':') = true →
        normalize_date v = .ok (isoDateTime dt)) ∧
      ((allDigits v || v.contains 'T' || v.contains ':') = false →
        normalize_date v = .ok (isoDate dt) ∧ isoDateShapeOK (isoDate dt) = true)) := by
  constructor
  · intro v dt hd hu
    obtain ⟨ho, hok, hsec⟩ := utcfromtimestamp_some (natOfDigits v) dt hu
    exact ⟨normalize_digits v dt hd hu, isoDateTimeShapeOK_render dt ho hok, hsec, ho⟩
  · intro v dt hp
    constructor
    · intro hb
      unfold normalize_date
      simp only [hp]
      rw [if_pos hb]
    · intro hb
      have hnorm : normalize_date v = .ok (isoDate dt) := by
        unfold normalize_date
        simp only [hp]
        rw [if_neg (by rw [hb]; exact Bool.false_ne_true)]
      refine ⟨hnorm, ?_⟩
      rcases parse_datetime_ok_some v dt hp with ⟨hd, -⟩ | ⟨-, hcase⟩
      · rw [hd] at hb
        simp at hb
      have hcolon : v.contains ':' = false := by
        simp only [Bool.or_eq_false_iff] at hb
        exact hb.2
      rcases hcase with hiso | ⟨-, hrfc⟩ | ⟨-, -, hdate⟩
      · exfalso
        obtain ⟨-, -, hc⟩ := parseISOz_some v dt hiso
        rw [(contains_iff_mem v ':').mpr hc] at hcolon
        cases hcolon
      · exfalso
        obtain ⟨-, -, hc⟩ := parseRFC822_some v dt hrfc
        rw [(contains_iff_mem v ':').mpr hc] at hcolon
        cases hcolon
      · obtain ⟨hok, ho, -, -, -, -⟩ := parseDateFmt_some v dt hdate
        rw [ho] at hok
        simp only [dtOKb, offOKb, Bool.and_true, decide_eq_true_eq] at hok
        obtain ⟨-, hy2, hm1, hm2, hd1, hd2, -, -, -⟩ := hok
        have hr := isoDateShapeOK_render dt.year dt.month dt.day hy2 hm1 hm2 hd1
          (Nat.le_trans hd2 (daysInMonth_le_31 dt.year dt.month))
        have hshape : isoDate dt = pad4 dt.year ++ '-' :: (pad2 dt.month ++ '-' :: pad2 dt.day) := by
          simp [isoDate]
        rwa [hshape]

/-- Witness for C3: the digit input `1700000000` normalizes to the
well-formed naive date-time `2023-11-14T22:13:20`, which re-encodes exactly
1700000000 epoch seconds. -/
theorem claim_C3_witness :
    allDigits (chars "1700000000") = true ∧
    utcfromtimestamp (natOfDigits (chars "1700000000")) = some dtEpoch ∧
    (normalize_date (chars "1700000000") = .ok (isoDateTime dtEpoch) ∧
      isoDateTimeShapeOK (isoDateTime dtEpoch) = true ∧
      naiveEpochSecs dtEpoch = (natOfDigits (chars "1700000000") : Int) ∧
      dtEpoch.tzOffset = none) :=
  ⟨rfl, rfl, claim_C3_digit_and_granularity.1 (chars "1700000000") dtEpoch rfl rfl⟩

/-- Counterexample to C3 as stated: the pure-digit input `999999999999`
(year 33658) makes `normalize_date` raise a `ValueError` instead of
returning an ISO-8601 date-time. -/
theorem claim_C3_counterexample :
    allDigits (chars "999999999999") = true ∧
    normalize_date (chars "999999999999") = .error () :=
  ⟨rfl, rfl⟩

/-- Claim C6: a successful `filter_jobs` preserves input order (its output is
a sublist of its input); with an empty title list it keeps exactly the
records passing the recency check, and with a non-empty title list it keeps
exactly the records whose lowered title contains some lowered entry as a
substring and that pass the recency check. -/
theorem claim_C6_filter_semantics (records : List JobRecord) (titles : List (List Char))
    (now : Int) (out : List JobRecord) (h : filter_jobs records titles now = .ok out) :
    List.Sublist out records ∧
    (titles = [] → out = records.filter (recencyB now)) ∧
    (titles ≠ [] → out = records.filter
      (fun r => title_matches r.title (titles.map lowerStr) && recencyB now r)) := by
  have heq := filter_jobs_ok_eq records titles now out h
  refine ⟨?_, ?_, ?_⟩
  · rw [heq]
    exact List.filter_sublist records
  · intro ht
    subst ht
    rw [heq]
    apply List.filter_congr
    intro r hr
    simp [keepB]
  · intro ht
    rw [heq]
    apply List.filter_congr
    intro r hr
    have hne : (titles.map lowerStr).isEmpty = false := by
      cases titles with
      | nil => exact absurd rfl ht
      | cons a as => rfl
    simp [keepB, hne]

/-- Witness for C6: filtering a single record dated `1970-01-01` at clock 0
with no title filter keeps it, and the theorem's empty-title characterization
holds at that input. -/
theorem claim_C6_witness :
    filter_jobs [recEpochDay] [] 0 = .ok [recEpochDay] ∧
    (List.Sublist [recEpochDay] [recEpochDay] ∧
      (([] : List (List Char)) = [] →
        [recEpochDay] = [recEpochDay].filter (recencyB 0)) ∧
      (([] : List (List Char)) ≠ [] →
        [recEpochDay] = [recEpochDay].filter
          (fun r => title_matches r.title (([] : List (List Char)).map lowerStr) &&
            recencyB 0 r))) :=
  ⟨rfl, claim_C6_filter_semantics [recEpochDay] [] 0 [recEpochDay] rfl⟩

/-- Claim C7: the Filter stage keeps a record only if its `date_posted`
re-parses via `parse_datetime` to an instant at or after `now − 24h`; a
record whose date parses to `None` is dropped, one whose timestamp is
strictly before the cutoff is dropped, and in particular one posted 48 hours
or more before `now` is always dropped, whatever the title list. -/
theorem claim_C7_recency_cutoff (records : List JobRecord) (titles : List (List Char))
    (now : Int) (out : List JobRecord) (r : JobRecord)
    (h : filter_jobs records titles now = .ok out) :
    (r ∈ out → ∃ dt, parse_datetime r.date_posted = .ok (some dt) ∧
      now - 86400 ≤ pyTimestamp dt) ∧
    (parse_datetime r.date_posted = .ok none → r ∉ out) ∧
    (∀ dt, parse_datetime r.date_posted = .ok (some dt) →
      pyTimestamp dt < now - 86400 → r ∉ out) ∧
    (∀ dt, parse_datetime r.date_posted = .ok (some dt) →
      pyTimestamp dt ≤ now - 172800 → r ∉ out) := by
  have heq := filter_jobs_ok_eq records titles now out h
  have hdrop : ∀ dt, parse_datetime r.date_posted = .ok (some dt) →
      pyTimestamp dt < now - 86400 → r ∉ out := by
    intro dt hp hlt
    apply filter_excludes records titles now out r h
    unfold keepB
    rw [recencyB_some now r dt hp]
    have hd : decide (now - 86400 ≤ pyTimestamp dt) = false := by
      simp only [decide_eq_false_iff_not]
      omega
    rw [hd, Bool.and_false]
  refine ⟨?_, ?_, hdrop, ?_⟩
  · intro hm
    rw [heq] at hm
    have hk := List.of_mem_filter hm
    unfold keepB at hk
    rw [Bool.and_eq_true] at hk
    have hr := hk.2
    unfold recencyB at hr
    cases hp : parse_datetime r.date_posted with
    | error e =>
      rw [hp] at hr
      simp only [] at hr
      exact absurd hr Bool.false_ne_true
    | ok od =>
      rw [hp] at hr
      cases od with
      | none =>
        simp only [] at hr
        exact absurd hr Bool.false_ne_true
      | some dt =>
        simp only [decide_eq_true_eq] at hr
        exact ⟨dt, rfl, hr⟩
  · intro hp
    apply filter_excludes records titles now out r h
    unfold keepB
    rw [recencyB_none now r hp, Bool.and_false]
  · intro dt hp hle
    exact hdrop dt hp (by omega)

/-- Witness for C7: at clock 172800 (48 hours after the epoch), the record
dated `1970-01-01` — whose timestamp is exactly `now − 48h` — is dropped by
the filter. -/
theorem claim_C7_witness :
    filter_jobs [recEpochDay] [] 172800 = .ok [] ∧
    parse_datetime recEpochDay.date_posted = .ok (some dt1970) ∧
    pyTimestamp dt1970 ≤ 172800 - 172800 ∧
    recEpochDay ∉ ([] : List JobRecord) :=
  ⟨rfl, rfl, by decide,
    (claim_C7_recency_cutoff [recEpochDay] [] 172800 [] recEpochDay rfl).2.2.2
      dt1970 rfl (by decide)⟩

/-- Claim C8 (amended): every record produced by a successful `transform` has
whitespace-free `title`, `company`, `location`, `url`, `tags`, `salary` and
`description` (each is a `pyStrip` fixed point) and a whitespace-free
`date_posted` (the Date Normalizer's outputs contain no whitespace); but
`source` and `source_id` are copied from the input verbatim, unstripped, so
the claim's "all ten string fields" is false. -/
theorem claim_C8_transform_whitespace (rs out : List JobRecord)
    (h : transform rs = .ok out) :
    ∀ r' ∈ out, pyStrip r'.title = r'.title ∧ pyStrip r'.company = r'.company ∧
      pyStrip r'.location = r'.location ∧ pyStrip r'.url = r'.url ∧
      pyStrip r'.tags = r'.tags ∧ pyStrip r'.date_posted = r'.date_posted ∧
      pyStrip r'.salary = r'.salary ∧ pyStrip r'.description = r'.description ∧
      ∃ r ∈ rs, r'.source = r.source ∧ r'.source_id = r.source_id := by
  induction rs generalizing out with
  | nil =>
    cases h
    intro r' hr'
    exact absurd hr' (List.not_mem_nil r')
  | cons r rs ih =>
    obtain ⟨r', rs', h1, h2, hout⟩ := transform_cons_ok r rs out h
    subst hout
    intro x hx
    rcases List.mem_cons.mp hx with hx | hx
    · subst hx
      obtain ⟨nd, hn, hr'⟩ := transformRecord_ok r x h1
      rw [hr']
      exact ⟨pyStrip_idem r.title, pyStrip_idem r.company, pyStrip_idem r.location,
        pyStrip_idem r.url, pyStrip_idem r.tags, normalize_out_no_ws r.date_posted nd hn,
        pyStrip_idem r.salary, pyStrip_idem r.description,
        r, List.mem_cons_self r rs, rfl, rfl⟩
    · obtain ⟨a, b, c, d, e, f, g, k, q, hq, hs⟩ := ih rs' h2 x hx
      exact ⟨a, b, c, d, e, f, g, k, q, List.mem_cons_of_mem r hq, hs⟩

/-- Witness for C8: on the transform of a record with a padded title the
stripped-field and date invariants hold. -/
theorem claim_C8_witness :
    transform [recIsoDate] = .ok [recIsoDateT] ∧
    ∀ r' ∈ [recIsoDateT], pyStrip r'.title = r'.title ∧
      pyStrip r'.company = r'.company ∧
      pyStrip r'.location = r'.location ∧ pyStrip r'.url = r'.url ∧
      pyStrip r'.tags = r'.tags ∧ pyStrip r'.date_posted = r'.date_posted ∧
      pyStrip r'.salary = r'.salary ∧ pyStrip r'.description = r'.description ∧
      ∃ r ∈ [recIsoDate], r'.source = r.source ∧ r'.source_id = r.source_id :=
  ⟨rfl, claim_C8_transform_whitespace [recIsoDate] [recIsoDateT] rfl⟩

/-- Counterexample to C8 as stated: a record whose `source` is `" a "`
passes through `transform` with the surrounding whitespace intact. -/
theorem claim_C8_counterexample :
    transform [recWsSource] = .ok [recWsSource] ∧
    pyStrip recWsSource.source ≠ recWsSource.source :=
  ⟨rfl, by decide⟩

/-- Claim C9: the `INSERT OR REPLACE` sink is an upsert on the natural key
`(source, source_id)`: loading two records with the same key in one run
equals loading them across two runs, the table afterwards holds exactly one
row for that key — the one written last — and key uniqueness is preserved. -/
theorem claim_C9_upsert_latest_wins (tbl : List JobRecord) (r1 r2 : JobRecord)
    (hk : rowKey r1 = rowKey r2) (hu : uniqKeys tbl) :
    load_to_sqlite (load_to_sqlite tbl [r1]) [r2] = load_to_sqlite tbl [r1, r2] ∧
    rowsWithKey (load_to_sqlite tbl [r1, r2]) (rowKey r2) = [r2] ∧
    rowsWithKey (load_to_sqlite tbl [r1, r2]) (rowKey r1) = [r2] ∧
    uniqKeys (load_to_sqlite tbl [r1, r2]) := by
  have hload : load_to_sqlite tbl [r1, r2] = upsertRow (upsertRow tbl r1) r2 := rfl
  refine ⟨rfl, ?_, ?_, ?_⟩
  · rw [hload]
    exact rowsWithKey_upsert (upsertRow tbl r1) r2
  · rw [hk, hload]
    exact rowsWithKey_upsert (upsertRow tbl r1) r2
  · rw [hload]
    exact upsertRow_uniq (upsertRow tbl r1) r2 (upsertRow_uniq tbl r1 hu)

/-- Witness for C9: writing two versions of the row keyed `("s", "1")` into
an empty table leaves exactly the second version under that key. -/
theorem claim_C9_witness :
    rowKey recV1 = rowKey recV2 ∧ uniqKeys ([] : List JobRecord) ∧
    (load_to_sqlite (load_to_sqlite [] [recV1]) [recV2] =
        load_to_sqlite [] [recV1, recV2] ∧
      rowsWithKey (load_to_sqlite [] [recV1, recV2]) (rowKey recV2) = [recV2] ∧
      rowsWithKey (load_to_sqlite [] [recV1, recV2]) (rowKey recV1) = [recV2] ∧
      uniqKeys (load_to_sqlite [] [recV1, recV2])) :=
  ⟨rfl, by simp [uniqKeys],
    claim_C9_upsert_latest_wins [] recV1 recV2 rfl (by simp [uniqKeys])⟩

/-- Claim C10: a record whose raw `date_posted` is a pure digit string is
always dropped by Transform followed by Filter, for every clock value and
title list: the normalizer emits a naive (offset-free) isoformat, which
`parse_datetime` cannot re-parse, so the filter's date check fails. -/
theorem claim_C10_epoch_dates_dropped (r : JobRecord) (cleaned out : List JobRecord)
    (titles : List (List Char)) (now : Int)
    (hd : allDigits r.date_posted = true)
    (ht : transform [r] = .ok cleaned)
    (hf : filter_jobs cleaned titles now = .ok out) : out = [] := by
  obtain ⟨r', rs', h1, h2, hout⟩ := transform_cons_ok r [] cleaned ht
  have h2' : Except.ok ([] : List JobRecord) = Except.ok rs' := h2
  have hrs : rs' = [] := by
    injection h2' with hx
    exact hx.symm
  subst hrs
  subst hout
  obtain ⟨nd, hn, hr'⟩ := transformRecord_ok r r' h1
  have hne : r.date_posted ≠ [] := by
    intro he
    rw [he] at hd
    cases hd
  have hdig : ∃ dt, utcfromtimestamp (natOfDigits r.date_posted) = some dt ∧
      nd = isoDateTime dt := by
    unfold normalize_date parse_datetime at hn
    rw [if_neg hne, if_pos hd] at hn
    cases hu : utcfromtimestamp (natOfDigits r.date_posted) with
    | none =>
      rw [hu] at hn
      cases hn
    | some dt =>
      rw [hu] at hn
      simp only [] at hn
      rw [if_pos (by rw [hd]; rfl)] at hn
      refine ⟨dt, rfl, ?_⟩
      injection hn with hx
      exact hx.symm
  obtain ⟨dt, hu, hnd⟩ := hdig
  obtain ⟨ho, hok, -⟩ := utcfromtimestamp_some (natOfDigits r.date_posted) dt hu
  have hp : parse_datetime nd = .ok none := by
    rw [hnd]
    exact parse_datetime_isoDateTime_naive dt ho hok
  have hrp : parse_datetime r'.date_posted = .ok none := by
    rw [hr']
    exact hp
  have hkr : keepB (titles.map lowerStr) now r' = false := by
    unfold keepB
    rw [recencyB_none now r' hrp, Bool.and_false]
  rw [filter_jobs_ok_eq [r'] titles now out hf]
  simp [List.filter, hkr]

/-- Witness for C10: the record with raw date `1700000000` survives
Transform as a naive isoformat and is then dropped by Filter at clock 0. -/
theorem claim_C10_witness :
    allDigits recDigitDate.date_posted = true ∧
    transform [recDigitDate] = .ok [recDigitDateT] ∧
    filter_jobs [recDigitDateT] [] 0 = .ok [] ∧ ([] : List JobRecord) = [] :=
  ⟨rfl, rfl, rfl,
    claim_C10_epoch_dates_dropped recDigitDate [recDigitDateT] [] [] 0 rfl rfl rfl⟩
